import Mathlib

/-!
Verification of the coretex-incident-enricher job-processing core.

Strings are modelled as lists of bytes (`List Nat`, each < 256), matching
Go's byte-oriented string operations (`len`, slicing, `utf8.ValidString`).
-/

set_option maxHeartbeats 1000000

deriving instance DecidableEq for Except

namespace Enricher

/-- A Go string, as its byte sequence. -/
abbrev Str := List Nat

/-- Bytes of an ASCII string literal. -/
def strOf (s : String) : Str := s.toList.map Char.toNat

/-- Go `unicode.IsSpace` restricted to the ASCII bytes it recognises:
tab, newline, vertical tab, form feed, carriage return, space. -/
def isWSByte (b : Nat) : Bool := b = 9 ∨ b = 10 ∨ b = 11 ∨ b = 12 ∨ b = 13 ∨ b = 32

/-- Go `strings.TrimSpace` (ASCII whitespace). -/
def trimSpace (s : Str) : Str :=
  (s.dropWhile isWSByte).reverse.dropWhile isWSByte |>.reverse

/-- ASCII lower-casing of one byte, as in Go `strings.ToLower` on ASCII. -/
def lowerByte (b : Nat) : Nat := if 65 ≤ b ∧ b ≤ 90 then b + 32 else b

/-- Go `strings.ToLower` (ASCII). -/
def toLower (s : Str) : Str := s.map lowerByte

/-- A UTF-8 continuation byte: 0x80..0xBF. -/
def isContB (b : Nat) : Bool := 0x80 ≤ b ∧ b ≤ 0xBF

/-- Allowed second byte after a 3-byte lead, per Go `unicode/utf8`'s
acceptRanges: 0xE0 requires 0xA0..0xBF, 0xED requires 0x80..0x9F,
other 3-byte leads require a plain continuation byte. -/
def accept3 (b0 b1 : Nat) : Bool :=
  if b0 = 0xE0 then 0xA0 ≤ b1 ∧ b1 ≤ 0xBF
  else if b0 = 0xED then 0x80 ≤ b1 ∧ b1 ≤ 0x9F
  else isContB b1

/-- Allowed second byte after a 4-byte lead, per Go `unicode/utf8`:
0xF0 requires 0x90..0xBF, 0xF4 requires 0x80..0x8F. -/
def accept4 (b0 b1 : Nat) : Bool :=
  if b0 = 0xF0 then 0x90 ≤ b1 ∧ b1 ≤ 0xBF
  else if b0 = 0xF4 then 0x80 ≤ b1 ∧ b1 ≤ 0x8F
  else isContB b1

/-- Go `utf8.ValidString`: the byte sequence is a concatenation of valid
UTF-8 character encodings (no surrogates, no overlong forms, ≤ U+10FFFF).
Transcribed from Go's decode loop, with the case split keyed on how much
lookahead the list still offers (a multi-byte lead with too short a tail
is invalid). -/
def validUtf8 : Str → Bool
  | [] => true
  | [b0] => b0 ≤ 0x7F
  | [b0, b1] =>
    if b0 ≤ 0x7F then validUtf8 [b1]
    else if 0xC2 ≤ b0 ∧ b0 ≤ 0xDF then isContB b1
    else false
  | [b0, b1, b2] =>
    if b0 ≤ 0x7F then validUtf8 [b1, b2]
    else if 0xC2 ≤ b0 ∧ b0 ≤ 0xDF then isContB b1 && validUtf8 [b2]
    else if 0xE0 ≤ b0 ∧ b0 ≤ 0xEF then accept3 b0 b1 && isContB b2
    else false
  | b0 :: b1 :: b2 :: b3 :: rest =>
    if b0 ≤ 0x7F then validUtf8 (b1 :: b2 :: b3 :: rest)
    else if 0xC2 ≤ b0 ∧ b0 ≤ 0xDF then isContB b1 && validUtf8 (b2 :: b3 :: rest)
    else if 0xE0 ≤ b0 ∧ b0 ≤ 0xEF then
      accept3 b0 b1 && isContB b2 && validUtf8 (b3 :: rest)
    else if 0xF0 ≤ b0 ∧ b0 ≤ 0xF4 then
      accept4 b0 b1 && isContB b2 && isContB b3 && validUtf8 rest
    else false

/-- One-byte-at-a-time trailing drop, bounded by a fuel that always covers
the Go loop (each iteration shortens the list by one byte). -/
def dropTailAux : Nat → Str → Str
  | 0, l => l
  | fuel + 1, l => if l = [] ∨ validUtf8 l then l else dropTailAux fuel l.dropLast

/-- The trailing-byte-dropping loop of `truncateToBytes`:
`for len(truncated) > 0 && !utf8.ValidString(truncated) { truncated = truncated[:len(truncated)-1] }`. -/
def dropTailInvalid (l : Str) : Str := dropTailAux l.length l

/-- `truncateToBytes` from `internal/llm/ollama.go` (identical copy in the
summarizer main): return `value` unchanged when the budget is non-positive
or the value fits, else cut at the byte budget and drop trailing bytes
while the result is not valid UTF-8. -/
def truncateToBytes (value : Str) (maxBytes : Int) : Str :=
  if maxBytes ≤ 0 ∨ (value.length : Int) ≤ maxBytes then value
  else dropTailInvalid (value.take maxBytes.toNat)

/-- A complete encoding of one UTF-8 character (1 to 4 bytes), with the
ranges enforced by `validUtf8`. -/
def goodChar (c : Str) : Bool :=
  match c with
  | [b0] => b0 ≤ 0x7F
  | [b0, b1] => (0xC2 ≤ b0 && b0 ≤ 0xDF) && isContB b1
  | [b0, b1, b2] => ((0xE0 ≤ b0 && b0 ≤ 0xEF) && accept3 b0 b1) && isContB b2
  | [b0, b1, b2, b3] =>
      (((0xF0 ≤ b0 && b0 ≤ 0xF4) && accept4 b0 b1) && isContB b2) && isContB b3
  | [] => false
  | _ :: _ :: _ :: _ :: _ :: _ => false

/-- Byte width of the first encoded character of a string; 0 when the
string is empty or does not start with a valid character encoding. -/
def firstCharWidth : Str → Nat
  | [] => 0
  | [b0] => if b0 ≤ 0x7F then 1 else 0
  | [b0, b1] =>
    if b0 ≤ 0x7F then 1
    else if 0xC2 ≤ b0 ∧ b0 ≤ 0xDF then (if isContB b1 then 2 else 0)
    else 0
  | [b0, b1, b2] =>
    if b0 ≤ 0x7F then 1
    else if 0xC2 ≤ b0 ∧ b0 ≤ 0xDF then (if isContB b1 then 2 else 0)
    else if 0xE0 ≤ b0 ∧ b0 ≤ 0xEF then (if accept3 b0 b1 && isContB b2 then 3 else 0)
    else 0
  | b0 :: b1 :: b2 :: b3 :: _ =>
    if b0 ≤ 0x7F then 1
    else if 0xC2 ≤ b0 ∧ b0 ≤ 0xDF then (if isContB b1 then 2 else 0)
    else if 0xE0 ≤ b0 ∧ b0 ≤ 0xEF then (if accept3 b0 b1 && isContB b2 then 3 else 0)
    else if 0xF0 ≤ b0 ∧ b0 ≤ 0xF4 then
      (if (accept4 b0 b1 && isContB b2) && isContB b3 then 4 else 0)
    else 0

/-- Decimal rendering of a Nat, as the bytes Go's `%d` verb produces. -/
def natToStr (n : Nat) : Str := strOf (Nat.repr n)

/-- `types.Summary` (fields as used throughout the workers). -/
structure Summary where
  IncidentID : Str := []
  SummaryMarkdown : Str := []
  Highlights : List Str := []
  ActionItems : List Str := []
  Confidence : ℚ := 0
  Model : Str := []
  ArtifactPtr : Str := []
deriving DecidableEq, Repr

/-- `types.EvidenceItem`. -/
structure EvidenceItem where
  Kind : Str := []
  Title : Str := []
  ArtifactPtr : Str := []
  ContentType : Str := []
  Bytes : Nat := 0
deriving DecidableEq, Repr

/-- `types.EvidenceBundle`. -/
structure EvidenceBundle where
  IncidentID : Str := []
  Evidence : List EvidenceItem := []
  NormalizedContext : List (Str × Str) := []
  CollectedAt : Str := []
deriving DecidableEq, Repr

/-- `llm.EvidenceText`. -/
structure EvidenceText where
  Kind : Str := []
  Title : Str := []
  ArtifactPtr : Str := []
  ContentType : Str := []
  Content : Str := []
deriving DecidableEq, Repr

/-- `llm.Input`. -/
structure Input where
  Bundle : EvidenceBundle := {}
  Evidence : List EvidenceText := []
deriving DecidableEq, Repr

/-- `llm.Settings`. -/
structure Settings where
  Provider : Str := []
  OpenAIAPIKey : Str := []
  OpenAIModel : Str := []
  OllamaURL : Str := []
  OllamaModel : Str := []
  OllamaTemp : ℚ := 0
  MaxInputBytes : Int := 0
  MaxEvidence : Int := 0
  MaxEvidenceLen : Int := 0
deriving DecidableEq, Repr

/-- The non-redacted mock summary line
`fmt.Sprintf("Incident %s summary: collected %d evidence item(s) at %s.", …)`;
`now` stands for the RFC3339 rendering of `time.Now().UTC()`. -/
def mockSummaryLine (id : Str) (count : Nat) (now : Str) : Str :=
  strOf "Incident " ++ id ++ strOf " summary: collected " ++ natToStr count ++
    strOf " evidence item(s) at " ++ now ++ strOf "."

/-- `llm.SummarizeMock`: fixed redacted placeholder when a redaction level
other than empty/"none" is active, else a templated summary derived from
the bundle's evidence count and the current time. -/
def SummarizeMock (now : Str) (input : Input) (redactionLevel : Str) : Summary :=
  let base : Summary :=
    { IncidentID := input.Bundle.IncidentID, Model := strOf "mock",
      Confidence := mkRat 2 5 }
  let redaction := toLower (trimSpace redactionLevel)
  if redaction ≠ [] ∧ redaction ≠ strOf "none" then
    { base with
      SummaryMarkdown := strOf "Summary redacted by policy.",
      Highlights := [strOf "redacted"],
      ActionItems := [strOf "request approval to view full details"],
      Model := strOf "mock-redacted" }
  else
    let count := input.Bundle.Evidence.length
    { base with
      SummaryMarkdown := mockSummaryLine input.Bundle.IncidentID count now,
      Highlights :=
        if count > 0 then [natToStr count ++ strOf " evidence item(s) collected"]
        else [],
      ActionItems := [strOf "review evidence bundle", strOf "confirm next steps"] }

/-- `llm.SummarizeOpenAI` (`internal/llm/openai.go`): always a
configuration error. -/
def SummarizeOpenAI (_settings : Settings) (_input : Input) : Except Str Summary :=
  Except.error (strOf "openai summarizer not configured")

/-- `llm.Summarize`: redaction gate, then provider dispatch. The network
Ollama backend is a parameter (its body performs HTTP I/O); everything the
dispatcher itself does is transcribed. -/
def Summarize (ollama : Settings → Input → Except Str Summary) (now : Str)
    (settings : Settings) (input : Input) (redactionLevel : Str) :
    Except Str Summary :=
  let redaction := toLower (trimSpace redactionLevel)
  if redaction ≠ [] ∧ redaction ≠ strOf "none" then
    Except.ok (SummarizeMock now input redactionLevel)
  else
    let provider := toLower (trimSpace settings.Provider)
    if provider = [] ∨ provider = strOf "mock" then
      Except.ok (SummarizeMock now input redactionLevel)
    else if provider = strOf "openai" then SummarizeOpenAI settings input
    else if provider = strOf "ollama" then ollama settings input
    else Except.error (strOf "unsupported llm provider: " ++ settings.Provider)

/-- A backend stub used for concrete instantiations: always fails. -/
def failBackend : Settings → Input → Except Str Summary :=
  fun _ _ => Except.error []

/-- JSON whitespace bytes (space, tab, newline, carriage return). -/
def jws (b : Nat) : Bool := b = 32 ∨ b = 9 ∨ b = 10 ∨ b = 13

/-- Skip leading JSON whitespace. -/
def skipWS (s : Str) : Str := s.dropWhile jws

/-- Go `strings.HasPrefix`. -/
def hasPrefix (s pre : Str) : Bool := s.take pre.length = pre

/-- Byte position of the first occurrence of byte b (Go `strings.Index`
with a one-byte needle). -/
def indexOfByte : Str → Nat → Option Nat
  | [], _ => none
  | x :: xs, b =>
    if x = b then some 0 else (indexOfByte xs b).map (fun i => i + 1)

/-- Byte position of the last occurrence of byte b (Go `strings.LastIndex`
with a one-byte needle). -/
def lastIndexOfByte : Str → Nat → Option Nat
  | [], _ => none
  | x :: xs, b =>
    match lastIndexOfByte xs b with
    | some i => some (i + 1)
    | none => if x = b then some 0 else none

/-- Whether `pat` occurs in `s` at byte offset i. -/
def occursAt (s pat : Str) (i : Nat) : Bool := (s.drop i).take pat.length = pat

/-- Byte position of the last occurrence of `pat` (Go `strings.LastIndex`). -/
def lastIndexOfSeq (s pat : Str) : Option Nat :=
  ((List.range (s.length + 1)).filter (occursAt s pat)).getLast?

/-- Go `strings.Contains`. -/
def containsSeq (s pat : Str) : Bool :=
  (List.range (s.length + 1)).any (occursAt s pat)

/-- A JSON document value (Go `encoding/json`'s data model; object member
order and duplicates are kept as parsed). -/
inductive JVal where
  | null
  | bool (b : Bool)
  | num (q : ℚ)
  | str (s : Str)
  | arr (elems : List JVal)
  | obj (members : List (Str × JVal))

/-- Value of a hex digit byte. -/
def hexVal (b : Nat) : Option Nat :=
  if 48 ≤ b ∧ b ≤ 57 then some (b - 48)
  else if 97 ≤ b ∧ b ≤ 102 then some (b - 87)
  else if 65 ≤ b ∧ b ≤ 70 then some (b - 55)
  else none

/-- UTF-8 encoding of a Unicode code point. -/
def encodeCodePoint (c : Nat) : Str :=
  if c < 0x80 then [c]
  else if c < 0x800 then [0xC0 + c / 64, 0x80 + c % 64]
  else if c < 0x10000 then
    [0xE0 + c / 4096, 0x80 + (c / 64) % 64, 0x80 + c % 64]
  else
    [0xF0 + c / 262144, 0x80 + (c / 4096) % 64, 0x80 + (c / 64) % 64,
      0x80 + c % 64]

/-- Decode one escape sequence (the bytes after a backslash): returns the
decoded bytes and the remaining input. `\uXXXX` follows Go's rules — a
valid surrogate pair combines, a lone surrogate becomes U+FFFD. -/
def escDecode (l : Str) : Option (Str × Str) :=
  match l with
  | [] => none
  | e :: r2 =>
    if e = 34 then some ([34], r2)
    else if e = 92 then some ([92], r2)
    else if e = 47 then some ([47], r2)
    else if e = 98 then some ([8], r2)
    else if e = 102 then some ([12], r2)
    else if e = 110 then some ([10], r2)
    else if e = 114 then some ([13], r2)
    else if e = 116 then some ([9], r2)
    else if e = 117 then
      match r2 with
      | h1 :: h2 :: h3 :: h4 :: r3 =>
        match hexVal h1, hexVal h2, hexVal h3, hexVal h4 with
        | some v1, some v2, some v3, some v4 =>
          let c := ((v1 * 16 + v2) * 16 + v3) * 16 + v4
          if 0xD800 ≤ c ∧ c ≤ 0xDBFF then
            match r3 with
            | 92 :: 117 :: g1 :: g2 :: g3 :: g4 :: r4 =>
              match hexVal g1, hexVal g2, hexVal g3, hexVal g4 with
              | some w1, some w2, some w3, some w4 =>
                let c2 := ((w1 * 16 + w2) * 16 + w3) * 16 + w4
                if 0xDC00 ≤ c2 ∧ c2 ≤ 0xDFFF then
                  some (encodeCodePoint
                    (0x10000 + (c - 0xD800) * 1024 + (c2 - 0xDC00)), r4)
                else some (encodeCodePoint 0xFFFD, r3)
              | _, _, _, _ => some (encodeCodePoint 0xFFFD, r3)
            | _ => some (encodeCodePoint 0xFFFD, r3)
          else if 0xDC00 ≤ c ∧ c ≤ 0xDFFF then some (encodeCodePoint 0xFFFD, r3)
          else some (encodeCodePoint c, r3)
        | _, _, _, _ => none
      | _ => none
    else none

/-- JSON string body parser (after the opening quote): decode until the
closing quote; unescaped control bytes are rejected. Fuel bounds the loop
by the input length (each step consumes at least one byte). -/
def parseJStr : Nat → Str → Option (Str × Str)
  | 0, _ => none
  | _ + 1, [] => none
  | fuel + 1, b :: rest =>
    if b = 34 then some ([], rest)
    else if b = 92 then
      (escDecode rest).bind (fun er =>
        (parseJStr fuel er.2).map (fun p => (er.1 ++ p.1, p.2)))
    else if b < 32 then none
    else (parseJStr fuel rest).map (fun p => (b :: p.1, p.2))

/-- Digit run to a natural number. -/
def digitsToNat (l : Str) : Nat := l.foldl (fun acc d => acc * 10 + (d - 48)) 0

/-- Whether a byte is an ASCII digit. -/
def isDigitB (b : Nat) : Bool := 48 ≤ b ∧ b ≤ 57

/-- JSON number parser, following the JSON grammar (optional minus,
integer part without leading zeros, optional fraction, optional exponent),
with the value taken exactly as a rational. -/
def parseNum (s : Str) : Option (JVal × Str) :=
  let neg : Bool := s.headI = 45
  let s1 := if neg then s.tail else s
  let intPart := s1.takeWhile isDigitB
  let r1 := s1.dropWhile isDigitB
  if intPart = [] then none
  else if intPart.length > 1 ∧ intPart.headI = 48 then none
  else
    let fracPart := if r1.headI = 46 then r1.tail.takeWhile isDigitB else []
    let r2 := if r1.headI = 46 then r1.tail.dropWhile isDigitB else r1
    if (r1.headI = 46 ∧ r1 ≠ [] ∧ fracPart = []) then none
    else
      let expOk : Bool := r2.headI = 101 ∨ r2.headI = 69
      let rr0 := r2.tail
      let expNeg : Bool := expOk ∧ rr0.headI = 45
      let expDigits :=
        if expOk then
          (if rr0.headI = 45 ∨ rr0.headI = 43 then rr0.tail else rr0)
        else []
      let expPart := expDigits.takeWhile isDigitB
      let r3 := if expOk then expDigits.dropWhile isDigitB else r2
      if expOk ∧ expPart = [] then none
      else
        let mantNum : Int :=
          (if neg then -1 else 1) *
            ((digitsToNat intPart * 10 ^ fracPart.length + digitsToNat fracPart : Nat) : Int)
        let e := digitsToNat expPart
        let mag : ℚ :=
          if expNeg then mkRat mantNum (10 ^ fracPart.length * 10 ^ e)
          else mkRat (mantNum * (10 ^ e : Nat)) (10 ^ fracPart.length)
        some (JVal.num mag, r3)

/-- Expect a given byte after whitespace; return the remainder. -/
def expectByte (b : Nat) (s : Str) : Option Str :=
  match skipWS s with
  | c :: r => if c = b then some r else none
  | [] => none

/-- Object members: one `"key": value` then a comma and more members or a
closing brace. `pv` parses one value (tied to the value parser's fuel). -/
def parseMembersF (pv : Str → Option (JVal × Str)) :
    Nat → Str → Option (List (Str × JVal) × Str)
  | 0, _ => none
  | fuel + 1, s =>
    match skipWS s with
    | [] => none
    | b :: rest =>
      if b = 34 then
        (parseJStr (rest.length + 1) rest).bind (fun kp =>
          (expectByte 58 kp.2).bind (fun r3 =>
            (pv r3).bind (fun vp =>
              match skipWS vp.2 with
              | [] => none
              | d :: r4 =>
                if d = 125 then some ([(kp.1, vp.1)], r4)
                else if d = 44 then
                  (parseMembersF pv fuel r4).map (fun mp =>
                    ((kp.1, vp.1) :: mp.1, mp.2))
                else none)))
      else none

/-- Array elements: one value then a comma and more elements or a closing
bracket. -/
def parseElemsF (pv : Str → Option (JVal × Str)) :
    Nat → Str → Option (List JVal × Str)
  | 0, _ => none
  | fuel + 1, s =>
    (pv s).bind (fun vp =>
      match skipWS vp.2 with
      | [] => none
      | d :: r4 =>
        if d = 93 then some ([vp.1], r4)
        else if d = 44 then
          (parseElemsF pv fuel r4).map (fun ep => (vp.1 :: ep.1, ep.2))
        else none)

/-- JSON value parser (recursive descent, mirroring `encoding/json`'s
grammar). Fuel bounds nesting depth; `2 * length + 2` always suffices. -/
def parseVal : Nat → Str → Option (JVal × Str)
  | 0, _ => none
  | fuel + 1, s =>
    match skipWS s with
    | [] => none
    | b :: rest =>
      if b = 123 then
        match skipWS rest with
        | 125 :: r2 => some (JVal.obj [], r2)
        | _ =>
          (parseMembersF (parseVal fuel) (rest.length + 1) rest).map
            (fun p => (JVal.obj p.1, p.2))
      else if b = 91 then
        match skipWS rest with
        | 93 :: r2 => some (JVal.arr [], r2)
        | _ =>
          (parseElemsF (parseVal fuel) (rest.length + 1) rest).map
            (fun p => (JVal.arr p.1, p.2))
      else if b = 34 then
        (parseJStr (rest.length + 1) rest).map (fun p => (JVal.str p.1, p.2))
      else if b = 116 then
        if hasPrefix rest (strOf "rue") then some (JVal.bool true, rest.drop 3)
        else none
      else if b = 102 then
        if hasPrefix rest (strOf "alse") then some (JVal.bool false, rest.drop 4)
        else none
      else if b = 110 then
        if hasPrefix rest (strOf "ull") then some (JVal.null, rest.drop 3)
        else none
      else if b = 45 ∨ isDigitB b then parseNum (b :: rest)
      else none

/-- `summaryPayload` from `internal/llm/ollama.go`. -/
structure summaryPayload where
  SummaryMarkdown : Str := []
  Highlights : List Str := []
  ActionItems : List Str := []
  Confidence : ℚ := 0
deriving DecidableEq, Repr

/-- ASCII-case-insensitive key match, as `encoding/json` matches object
keys to struct field tags (exact or case-folded). -/
def keyMatch (k : Str) (tag : Str) : Bool := toLower k = toLower tag

/-- Decode a JSON array into a Go `[]string`: string elements pass, null
elements become empty strings, anything else is a type error. -/
def strElems : List JVal → Option (List Str)
  | [] => some []
  | JVal.str s :: rest => (strElems rest).map (fun l => s :: l)
  | JVal.null :: rest => (strElems rest).map (fun l => [] :: l)
  | _ => none

/-- Fold the object members into a `summaryPayload` in document order
(later duplicates overwrite, unknown keys are ignored, a type mismatch is
an error, null leaves the field unchanged) — `encoding/json` struct
decoding for this payload type. -/
def applyMembers : List (Str × JVal) → summaryPayload → Option summaryPayload
  | [], p => some p
  | (k, v) :: rest, p =>
    if keyMatch k (strOf "summary_md") then
      match v with
      | JVal.str s => applyMembers rest { p with SummaryMarkdown := s }
      | JVal.null => applyMembers rest p
      | _ => none
    else if keyMatch k (strOf "highlights") then
      match v with
      | JVal.arr elems =>
        match strElems elems with
        | some l => applyMembers rest { p with Highlights := l }
        | none => none
      | JVal.null => applyMembers rest p
      | _ => none
    else if keyMatch k (strOf "action_items") then
      match v with
      | JVal.arr elems =>
        match strElems elems with
        | some l => applyMembers rest { p with ActionItems := l }
        | none => none
      | JVal.null => applyMembers rest p
      | _ => none
    else if keyMatch k (strOf "confidence") then
      match v with
      | JVal.num q => applyMembers rest { p with Confidence := q }
      | JVal.null => applyMembers rest p
      | _ => none
    else applyMembers rest p

/-- Struct decoding of a parse outcome: exactly one JSON value (plus
trailing whitespace), and the value must be an object whose known members
decode with the right types. -/
def payloadFromParse : Option (JVal × Str) → Option summaryPayload
  | some (JVal.obj members, rest) =>
    if skipWS rest = [] then applyMembers members {} else none
  | _ => none

/-- `json.Unmarshal(data, &payload)` for `summaryPayload`. -/
def jsonUnmarshalPayload (s : Str) : Option summaryPayload :=
  payloadFromParse (parseVal (2 * s.length + 2) s)

/-- `normalizeSummaryPayload`: clamp confidence into [0, 1]. -/
def normalizeSummaryPayload (p : summaryPayload) : summaryPayload :=
  let p1 := if p.Confidence < 0 then { p with Confidence := 0 } else p
  if p1.Confidence > 1 then { p1 with Confidence := 1 } else p1

/-- The fence-stripping preamble of `parseSummaryJSON` from
`internal/llm/ollama.go`: trim, then if the trimmed text starts with
three backticks, drop the fence line (through the first newline), cut at
the last triple-backtick, and trim again. -/
def stripFence (raw : Str) : Str :=
  let trimmed0 := trimSpace raw
  if hasPrefix trimmed0 (strOf "```") then
    let t1 := trimmed0.drop 3
    let t2 :=
      match indexOfByte t1 10 with
      | some idx => t1.drop (idx + 1)
      | none => t1
    let t3 :=
      match lastIndexOfSeq t2 (strOf "```") with
      | some fence => t2.take fence
      | none => t2
    trimSpace t3
  else trimmed0

/-- The recovery ladder of `parseSummaryJSON`: try a direct unmarshal of
the (fence-stripped) text, else try the first-brace to last-brace
substring. -/
def recoverPayload (trimmed : Str) : Option summaryPayload :=
  match jsonUnmarshalPayload trimmed with
  | some payload => some (normalizeSummaryPayload payload)
  | none =>
    match indexOfByte trimmed 123, lastIndexOfByte trimmed 125 with
    | some start, some stop =>
      if start < stop then
        match jsonUnmarshalPayload ((trimmed.drop start).take (stop + 1 - start)) with
        | some payload => some (normalizeSummaryPayload payload)
        | none => none
      else none
    | _, _ => none

/-- `parseSummaryJSON` from `internal/llm/ollama.go`: trim, strip one
fenced code block if present (drop the fence line, cut at the last
triple-backtick), try a direct unmarshal, else try the first-brace to
last-brace substring. -/
def parseSummaryJSON (raw : Str) : Option summaryPayload :=
  recoverPayload (stripFence raw)

/-- The tail of `SummarizeOllama` (`internal/llm/ollama.go` lines 97-114),
from the decoded chat reply onward: an empty trimmed reply is an error;
otherwise recover structured fields via `parseSummaryJSON`, defaulting
`summary_md` to the whole reply when absent. -/
def ollamaFinish (incidentId : Str) (model : Str) (reply : Str) :
    Except Str Summary :=
  let content := trimSpace reply
  if content = [] then Except.error (strOf "ollama response empty")
  else
    let base : Summary :=
      { IncidentID := incidentId, Model := strOf "ollama:" ++ model }
    let summary :=
      match parseSummaryJSON content with
      | some payload =>
        { base with
          SummaryMarkdown := payload.SummaryMarkdown,
          Highlights := payload.Highlights,
          ActionItems := payload.ActionItems,
          Confidence := payload.Confidence }
      | none => base
    if summary.SummaryMarkdown = [] then
      Except.ok { summary with SummaryMarkdown := content }
    else Except.ok summary

/-- `json.Unmarshal(content, &payload)` for `map[string]any`: the top
value must be an object; the member list stands for the map (for lookups,
the last occurrence of a key wins). -/
def jsonUnmarshalMap (s : Str) : Option (List (Str × JVal)) :=
  match parseVal (2 * s.length + 2) s with
  | some (JVal.obj members, rest) =>
    if skipWS rest = [] then some members else none
  | _ => none

/-- Go map indexing over the parsed member list: the last duplicate wins. -/
def mapGet (members : List (Str × JVal)) (key : Str) : Option JVal :=
  ((members.filter (fun kv => kv.1 = key)).getLast?).map (fun kv => kv.2)

/-- `nestedString`: walk nested objects along the key path; a final string
value is trimmed, anything else gives the empty string. -/
def nestedLookup : JVal → List Str → Option JVal
  | v, [] => some v
  | JVal.obj m, k :: ks =>
    match mapGet m k with
    | some v => nestedLookup v ks
    | none => none
  | _, _ :: _ => none

/-- `nestedString` / `stringField` result (a path of length one is
`stringField`). -/
def nestedString (m : List (Str × JVal)) (path : List Str) : Str :=
  match nestedLookup (JVal.obj m) path with
  | some (JVal.str s) => trimSpace s
  | _ => []

/-- `extractEvidenceText` from the summarizer main: structured-looking
content (json content-type or text starting with a brace) gets a
message-field lookup over two known paths plus a flat field, falling back
to the whole trimmed text. -/
def extractEvidenceText (content : Str) (contentType : Str) : Str :=
  let trimmed := trimSpace content
  if trimmed = [] then []
  else if containsSeq (toLower contentType) (strOf "json") ∨
      hasPrefix trimmed (strOf "\x7b") then
    match jsonUnmarshalMap content with
    | some payload =>
      let m1 := nestedString payload [strOf "raw", strOf "message"]
      if m1 ≠ [] then m1
      else
        let m2 := nestedString payload [strOf "incident", strOf "raw", strOf "message"]
        if m2 ≠ [] then m2
        else
          let m3 := nestedString payload [strOf "message"]
          if m3 ≠ [] then m3
          else trimmed
    | none => trimmed
  else trimmed

/-- Result of one artifact fetch from the gateway: content bytes plus the
optional `content_type` metadata entry. -/
structure FetchResult where
  content : Str := []
  contentTypeMeta : Option Str := none
deriving DecidableEq, Repr

/-- Content-type resolution: the item's own content type, else the
`content_type` metadata entry. -/
def resolveCT (itemCT : Str) (meta : Option Str) : Str :=
  if itemCT = [] then
    match meta with
    | some v => v
    | none => []
  else itemCT

/-- The loop body of `collectEvidenceText`, with the gateway fetch as a
function (`none` models a fetch error, which skips the item). -/
def collectGo (fetch : Str → Option FetchResult) (mi mb : Int) :
    List EvidenceItem → List EvidenceText → Int → List EvidenceText
  | [], out, _ => out
  | item :: items, out, total =>
    if item.ArtifactPtr = [] then collectGo fetch mi mb items out total
    else if mi ≤ (out.length : Int) ∨ mb ≤ total then out
    else
      match fetch item.ArtifactPtr with
      | none => collectGo fetch mi mb items out total
      | some fr =>
        let contentType := resolveCT item.ContentType fr.contentTypeMeta
        let text := trimSpace (extractEvidenceText fr.content contentType)
        if text = [] then collectGo fetch mi mb items out total
        else
          let remaining := mb - total
          if remaining ≤ 0 then out
          else
            let text2 := truncateToBytes text remaining
            let et : EvidenceText :=
              { Kind := item.Kind, Title := item.Title,
                ArtifactPtr := item.ArtifactPtr, ContentType := contentType,
                Content := text2 }
            collectGo fetch mi mb items (out ++ [et]) (total + (text2.length : Int))

/-- `collectEvidenceText` from the summarizer main: non-positive budgets
fall back to the defaults (4 items, 32768 bytes), then the bounded
in-order collection loop runs. -/
def collectEvidenceText (fetch : Str → Option FetchResult)
    (bundle : EvidenceBundle) (maxItems maxBytes : Int) : List EvidenceText :=
  let mi := if maxItems ≤ 0 then 4 else maxItems
  let mb := if maxBytes ≤ 0 then 32768 else maxBytes
  collectGo fetch mi mb bundle.Evidence [] 0

/-- `types.SlackResult` (the webhook sink's `{ok, channel, ts, permalink}`). -/
structure SlackResult where
  Ok : Bool := false
  Channel : Str := []
  Ts : Str := []
  Permalink : Str := []
deriving DecidableEq, Repr

/-- `types.PostResult`. -/
structure PostResult where
  IncidentID : Str := []
  Mode : Str := []
  Slack : Option SlackResult := none
  ArtifactPtr : Str := []
  PostedAt : Str := []
deriving DecidableEq, Repr

/-- `IncidentInput.destination`. -/
structure IncidentDest where
  Mode : Str := []
  SlackWebhookURL : Str := []
deriving DecidableEq, Repr

/-- `IncidentInput.source`. -/
structure IncidentSource where
  System : Str := []
  URL : Str := []
deriving DecidableEq, Repr

/-- `types.IncidentInput`. -/
structure IncidentInput where
  IncidentID : Str := []
  Title : Str := []
  Severity : Str := []
  Source : IncidentSource := {}
  Raw : Str := []
  Destination : IncidentDest := {}
deriving DecidableEq, Repr

/-- The poster job's resolved context (`posterInput`). -/
structure PosterInput where
  Incident : IncidentInput := {}
  Evidence : EvidenceBundle := {}
  Summary : Summary := {}
deriving DecidableEq, Repr

/-- Modelled from the spec: `policyconstraints.PolicyConstraints`
(`{max_artifact_bytes, redaction_level, allowed_hosts}`), whose package
source is not in the repository snapshot (only its callers are). -/
structure PolicyConstraints where
  MaxArtifactBytes : Int := 0
  RedactionLevel : Str := []
  AllowedHosts : List Str := []
deriving DecidableEq, Repr

/-- Modelled from the spec: the host component of a webhook URL — the
bytes after a `://` scheme separator (if any) up to the first slash or
colon. -/
def urlHost (url : Str) : Str :=
  let after :=
    match (List.range (url.length + 1)).find? (occursAt url (strOf "://")) with
    | some i => url.drop (i + 3)
    | none => url
  after.takeWhile (fun b => b ≠ 47 ∧ b ≠ 58)

/-- Modelled from the spec: `policyconstraints.HostAllowed` — the resolved
webhook's host must be a member of the allow-list. -/
def HostAllowed (c : PolicyConstraints) (url : Str) : Bool :=
  c.AllowedHosts.contains (urlHost url)

/-- The idempotency-cache state plus the logs of external effects the
handler performed (webhook posts and artifact uploads). -/
structure PostWorld where
  cache : List (Str × PostResult) := []
  webhookLog : List (Str × Str) := []
  uploads : Nat := 0
deriving DecidableEq, Repr

/-- Injected behavior of the external collaborators for one invocation:
which calls fail, and the slack response on success. -/
structure Faults where
  webhookFails : Bool := false
  uploadFails : Bool := false
  cacheSetFails : Bool := false
  putResultFails : Bool := false
  slackResponse : SlackResult := {}
deriving DecidableEq, Repr

/-- The slack branch's webhook resolution: per-incident override first,
else the process-wide default. -/
def resolvedWebhook (cfgSlackWebhookURL : Str) (input : PosterInput) : Str :=
  if trimSpace input.Incident.Destination.SlackWebhookURL = [] then
    cfgSlackWebhookURL
  else trimSpace input.Incident.Destination.SlackWebhookURL

/-- The slack branch's message: the trimmed summary, or the generic
fallback when blank. -/
def composedMessage (input : PosterInput) : Str :=
  if trimSpace input.Summary.SummaryMarkdown = [] then
    strOf "Incident " ++ input.Incident.IncidentID ++ strOf " summary ready"
  else trimSpace input.Summary.SummaryMarkdown

/-- Redis `Get` on the cache (`getCachedPost`): first binding wins. -/
def assocGet (l : List (Str × PostResult)) (k : Str) : Option PostResult :=
  (l.find? (fun kv => kv.1 = k)).map (fun kv => kv.2)

/-- `storeCachedPost` then `buildResult`: a cache-write failure is a job
failure before the result is returned. -/
def finishPost (faults : Faults) (key : Str) (result : PostResult)
    (w : PostWorld) : Except Str PostResult × PostWorld :=
  if faults.cacheSetFails then (Except.error (strOf "cache set failed"), w)
  else
    let w3 : PostWorld := { w with cache := (key, result) :: w.cache }
    if faults.putResultFails then (Except.error (strOf "put result failed"), w3)
    else (Except.ok result, w3)

/-- The poster handler (`cmd/poster` handler body) from the resolved
context input onward: validate the incident id, consult the idempotency
cache, resolve the destination mode, run the slack or artifact branch,
cache and return the result. The policy constraints arrive already parsed
(`policyconstraints.Parse` of the job env; its source is outside the
snapshot), and external calls go through the fault model. -/
def posterHandler (cfgSlackWebhookURL : Str) (constraints : PolicyConstraints)
    (faults : Faults) (now : Str) (input : PosterInput) (w : PostWorld) :
    Except Str PostResult × PostWorld :=
  if trimSpace input.Incident.IncidentID = [] then
    (Except.error (strOf "missing incident_id"), w)
  else
    let cacheKey := strOf "incident-enricher:posted:" ++ input.Incident.IncidentID
    match assocGet w.cache cacheKey with
    | some cached =>
      if faults.putResultFails then (Except.error (strOf "put result failed"), w)
      else (Except.ok cached, w)
    | none =>
      let mode0 := toLower (trimSpace input.Incident.Destination.Mode)
      let mode := if mode0 = [] then strOf "artifact" else mode0
      let result0 : PostResult :=
        { IncidentID := input.Incident.IncidentID, Mode := mode, PostedAt := now }
      if mode = strOf "slack" then
        let webhook := resolvedWebhook cfgSlackWebhookURL input
        if webhook = [] then
          (Except.error (strOf "slack webhook url missing"), w)
        else if HostAllowed constraints webhook = false then
          (Except.error (strOf "webhook host not allowed by policy"), w)
        else
          let message := composedMessage input
          if faults.webhookFails then
            (Except.error (strOf "webhook post failed"), w)
          else
            let w1 : PostWorld :=
              { w with webhookLog := w.webhookLog ++ [(webhook, message)] }
            if faults.uploadFails then
              (Except.error (strOf "artifact upload failed"), w1)
            else
              let ptr := strOf "artifact-" ++ natToStr w1.uploads
              let w2 : PostWorld := { w1 with uploads := w1.uploads + 1 }
              let result1 :=
                { result0 with Slack := some faults.slackResponse, ArtifactPtr := ptr }
              finishPost faults cacheKey result1 w2
      else if mode = strOf "artifact" then
        if faults.uploadFails then
          (Except.error (strOf "artifact upload failed"), w)
        else
          let ptr := strOf "artifact-" ++ natToStr w.uploads
          let w2 : PostWorld := { w with uploads := w.uploads + 1 }
          let result1 := { result0 with ArtifactPtr := ptr }
          finishPost faults cacheKey result1 w2
      else (Except.error (strOf "unsupported destination mode: " ++ mode), w)

/-- Total content bytes of an aggregated evidence list. -/
def sumContent (l : List EvidenceText) : Nat :=
  (l.map (fun e => e.Content.length)).sum

/-- Concrete fetch function for instantiations: every pointer resolves to
a small plain-text artifact. -/
def wFetch : Str → Option FetchResult :=
  fun _ => some { content := strOf "hello world" }

/-- Concrete two-item bundle for instantiations. -/
def wBundle : EvidenceBundle :=
  { IncidentID := strOf "INC-1",
    Evidence := [{ ArtifactPtr := strOf "a1" }, { ArtifactPtr := strOf "a2" }] }

/-- Concrete allow-list for instantiations. -/
def wCons : PolicyConstraints := { AllowedHosts := [strOf "hooks.example.com"] }

/-- Concrete slack-mode poster input with an allowed webhook host. -/
def wInput : PosterInput :=
  { Incident := { IncidentID := strOf "INC-1",
                  Destination := { Mode := strOf "slack",
                                   SlackWebhookURL := strOf "https://hooks.example.com/x" } },
    Summary := { SummaryMarkdown := strOf "all good" } }

/-- Concrete slack-mode poster input with a disallowed webhook host. -/
def wBadInput : PosterInput :=
  { Incident := { IncidentID := strOf "INC-1",
                  Destination := { Mode := strOf "slack",
                                   SlackWebhookURL := strOf "https://evil.example.net/x" } },
    Summary := { SummaryMarkdown := strOf "all good" } }

/-- The PostResult the clean run on `wInput` produces. -/
def wResult1 : PostResult :=
  { IncidentID := strOf "INC-1", Mode := strOf "slack", Slack := some {},
    ArtifactPtr := strOf "artifact-0", PostedAt := strOf "T1" }

/-- The world after the clean run on `wInput`. -/
def wWorld1 : PostWorld :=
  { cache := [(strOf "incident-enricher:posted:INC-1", wResult1)],
    webhookLog := [(strOf "https://hooks.example.com/x", strOf "all good")],
    uploads := 1 }

/-- Faults injecting an artifact-upload failure. -/
def wUploadFail : Faults := { uploadFails := true }

/-- A concrete input with a fixed incident id, for instantiations. -/
def sampleInput : Input := { Bundle := { IncidentID := strOf "INC-1" } }

/-- A concrete summary JSON object (`{"summary_md":"s"}` with a newline
after the opening brace), for C6 instantiations. -/
def c6j : Str := [123, 10] ++ strOf "\x22summary_md\x22:\x22s\x22" ++ [125]

/-- The payload encoded by `c6j`. -/
def c6payload : summaryPayload := { SummaryMarkdown := strOf "s" }

/-- A byte string that is a concatenation of complete character encodings. -/
inductive Chars : Str → Prop
  | nil : Chars []
  | cons (c t : Str) : goodChar c = true → Chars t → Chars (c ++ t)

end Enricher

namespace Enricher

theorem dropTailAux_nil (fuel : Nat) : dropTailAux fuel [] = [] := by
  cases fuel <;> rfl

theorem dropTailAux_pref (fuel : Nat) : ∀ l : Str, dropTailAux fuel l <+: l := by
  induction fuel with
  | zero => intro l; exact List.prefix_rfl
  | succ n ih =>
    intro l
    unfold dropTailAux
    split
    · exact List.prefix_rfl
    · exact List.IsPrefix.trans (ih l.dropLast) (List.dropLast_prefix l)

theorem dropTailAux_valid (fuel : Nat) :
    ∀ l : Str, l.length ≤ fuel → validUtf8 (dropTailAux fuel l) = true := by
  induction fuel with
  | zero =>
    intro l h
    have : l = [] := List.length_eq_zero.mp (Nat.le_zero.mp h)
    subst this; rfl
  | succ n ih =>
    intro l h
    unfold dropTailAux
    split
    · rename_i hc
      rcases hc with h1 | h2
      · subst h1; rfl
      · exact h2
    · rename_i hc
      push_neg at hc
      apply ih
      have hne : l ≠ [] := hc.1
      have : 1 ≤ l.length := by
        cases l with
        | nil => exact absurd rfl hne
        | cons a as => simp
      rw [List.length_dropLast]; omega

theorem dropTailInvalid_pref (l : Str) : dropTailInvalid l <+: l :=
  dropTailAux_pref _ l

theorem dropTailInvalid_valid (l : Str) : validUtf8 (dropTailInvalid l) = true :=
  dropTailAux_valid _ l le_rfl

theorem dropTailAux_congr :
    ∀ fuel₁ fuel₂ (l : Str), l.length ≤ fuel₁ → l.length ≤ fuel₂ →
      dropTailAux fuel₁ l = dropTailAux fuel₂ l := by
  intro fuel₁
  induction fuel₁ with
  | zero =>
    intro fuel₂ l h1 _
    have : l = [] := List.length_eq_zero.mp (Nat.le_zero.mp h1)
    subst this
    rw [dropTailAux_nil, dropTailAux_nil]
  | succ n ih =>
    intro fuel₂ l h1 h2
    cases fuel₂ with
    | zero =>
      have : l = [] := List.length_eq_zero.mp (Nat.le_zero.mp h2)
      subst this
      rw [dropTailAux_nil, dropTailAux_nil]
    | succ m =>
      show dropTailAux (n + 1) l = dropTailAux (m + 1) l
      unfold dropTailAux
      split
      · rfl
      · rename_i hc
        push_neg at hc
        have hne : l ≠ [] := hc.1
        have hlen : 1 ≤ l.length := by
          cases l with
          | nil => exact absurd rfl hne
          | cons a as => simp
        exact ih m l.dropLast (by rw [List.length_dropLast]; omega)
          (by rw [List.length_dropLast]; omega)

theorem dropTailInvalid_unfold (l : Str) :
    dropTailInvalid l =
      if l = [] ∨ validUtf8 l then l else dropTailInvalid l.dropLast := by
  cases l with
  | nil =>
    rw [if_pos (Or.inl rfl)]
    exact dropTailAux_nil 0
  | cons a as =>
    have h1 : dropTailInvalid (a :: as) = dropTailAux (as.length + 1) (a :: as) := rfl
    rw [h1]
    rw [show dropTailAux (as.length + 1) (a :: as) =
        (if (a :: as) = [] ∨ validUtf8 (a :: as) then (a :: as)
         else dropTailAux as.length (a :: as).dropLast) from rfl]
    by_cases hc : (a :: as) = [] ∨ validUtf8 (a :: as) = true
    · rw [if_pos hc, if_pos hc]
    · rw [if_neg hc, if_neg hc]
      exact dropTailAux_congr as.length (a :: as).dropLast.length (a :: as).dropLast
        (by simp [List.length_dropLast]) le_rfl

theorem goodChar_shape (c : Str) (h : goodChar c = true) :
    (∃ b0, c = [b0] ∧ b0 ≤ 0x7F) ∨
    (∃ b0 b1, c = [b0, b1] ∧ 0xC2 ≤ b0 ∧ b0 ≤ 0xDF ∧ isContB b1 = true) ∨
    (∃ b0 b1 b2, c = [b0, b1, b2] ∧ 0xE0 ≤ b0 ∧ b0 ≤ 0xEF ∧
      accept3 b0 b1 = true ∧ isContB b2 = true) ∨
    (∃ b0 b1 b2 b3, c = [b0, b1, b2, b3] ∧ 0xF0 ≤ b0 ∧ b0 ≤ 0xF4 ∧
      accept4 b0 b1 = true ∧ isContB b2 = true ∧ isContB b3 = true) := by
  match c with
  | [] => simp [goodChar] at h
  | [b0] =>
    simp only [goodChar, decide_eq_true_eq] at h
    exact Or.inl ⟨b0, rfl, h⟩
  | [b0, b1] =>
    simp only [goodChar, Bool.and_eq_true, decide_eq_true_eq] at h
    exact Or.inr (Or.inl ⟨b0, b1, rfl, h.1.1, h.1.2, h.2⟩)
  | [b0, b1, b2] =>
    simp only [goodChar, Bool.and_eq_true, decide_eq_true_eq] at h
    exact Or.inr (Or.inr (Or.inl ⟨b0, b1, b2, rfl, h.1.1.1, h.1.1.2, h.1.2, h.2⟩))
  | [b0, b1, b2, b3] =>
    simp only [goodChar, Bool.and_eq_true, decide_eq_true_eq] at h
    exact Or.inr (Or.inr (Or.inr
      ⟨b0, b1, b2, b3, rfl, h.1.1.1.1, h.1.1.1.2, h.1.1.2, h.1.2, h.2⟩))
  | b0 :: b1 :: b2 :: b3 :: b4 :: c5 => simp [goodChar] at h

theorem valid_cons_ascii (b0 : Nat) (rest : Str) (h : b0 ≤ 0x7F) :
    validUtf8 (b0 :: rest) = validUtf8 rest := by
  match rest with
  | [] => simp [validUtf8, h]
  | [b1] => conv_lhs => rw [validUtf8, if_pos h]
  | [b1, b2] => conv_lhs => rw [validUtf8, if_pos h]
  | b1 :: b2 :: b3 :: t => conv_lhs => rw [validUtf8, if_pos h]

theorem valid_cons_two (b0 b1 : Nat) (rest : Str) (h1 : 0xC2 ≤ b0) (h2 : b0 ≤ 0xDF)
    (h3 : isContB b1 = true) :
    validUtf8 (b0 :: b1 :: rest) = validUtf8 rest := by
  match rest with
  | [] =>
    conv_lhs => rw [validUtf8, if_neg (by omega : ¬b0 ≤ 0x7F), if_pos ⟨h1, h2⟩, h3]
    rfl
  | [b2] =>
    conv_lhs => rw [validUtf8, if_neg (by omega : ¬b0 ≤ 0x7F), if_pos ⟨h1, h2⟩, h3]
    simp
  | b2 :: b3 :: t =>
    conv_lhs => rw [validUtf8, if_neg (by omega : ¬b0 ≤ 0x7F), if_pos ⟨h1, h2⟩, h3]
    simp

theorem valid_cons_three (b0 b1 b2 : Nat) (rest : Str) (h1 : 0xE0 ≤ b0)
    (h2 : b0 ≤ 0xEF) (h3 : accept3 b0 b1 = true) (h4 : isContB b2 = true) :
    validUtf8 (b0 :: b1 :: b2 :: rest) = validUtf8 rest := by
  match rest with
  | [] =>
    conv_lhs => rw [validUtf8, if_neg (by omega : ¬b0 ≤ 0x7F),
      if_neg (by omega : ¬(0xC2 ≤ b0 ∧ b0 ≤ 0xDF)), if_pos ⟨h1, h2⟩, h3, h4]
    rfl
  | b3 :: t =>
    conv_lhs => rw [validUtf8, if_neg (by omega : ¬b0 ≤ 0x7F),
      if_neg (by omega : ¬(0xC2 ≤ b0 ∧ b0 ≤ 0xDF)), if_pos ⟨h1, h2⟩, h3, h4]
    simp

theorem valid_cons_four (b0 b1 b2 b3 : Nat) (rest : Str) (h1 : 0xF0 ≤ b0)
    (h2 : b0 ≤ 0xF4) (h3 : accept4 b0 b1 = true) (h4 : isContB b2 = true)
    (h5 : isContB b3 = true) :
    validUtf8 (b0 :: b1 :: b2 :: b3 :: rest) = validUtf8 rest := by
  conv_lhs => rw [validUtf8, if_neg (by omega : ¬b0 ≤ 0x7F),
    if_neg (by omega : ¬(0xC2 ≤ b0 ∧ b0 ≤ 0xDF)),
    if_neg (by omega : ¬(0xE0 ≤ b0 ∧ b0 ≤ 0xEF)), if_pos ⟨h1, h2⟩, h3, h4, h5]
  simp

theorem validUtf8_append_char (c t : Str) (h : goodChar c = true) :
    validUtf8 (c ++ t) = validUtf8 t := by
  rcases goodChar_shape c h with ⟨b0, rfl, h1⟩ | ⟨b0, b1, rfl, h1, h2, h3⟩ |
    ⟨b0, b1, b2, rfl, h1, h2, h3, h4⟩ | ⟨b0, b1, b2, b3, rfl, h1, h2, h3, h4, h5⟩
  · simpa only [List.cons_append, List.nil_append] using valid_cons_ascii b0 t h1
  · simpa only [List.cons_append, List.nil_append] using
      valid_cons_two b0 b1 t h1 h2 h3
  · simpa only [List.cons_append, List.nil_append] using
      valid_cons_three b0 b1 b2 t h1 h2 h3 h4
  · simpa only [List.cons_append, List.nil_append] using
      valid_cons_four b0 b1 b2 b3 t h1 h2 h3 h4 h5

theorem validUtf8_one_lead (b0 : Nat) (h : 0xC2 ≤ b0) : validUtf8 [b0] = false := by
  simp only [validUtf8, decide_eq_false_iff_not]
  omega

theorem validUtf8_two_lead (b0 b1 : Nat) (h : 0xE0 ≤ b0) :
    validUtf8 [b0, b1] = false := by
  rw [validUtf8]
  rw [if_neg (by omega : ¬b0 ≤ 0x7F), if_neg (by omega : ¬(0xC2 ≤ b0 ∧ b0 ≤ 0xDF))]

theorem validUtf8_three_lead (b0 b1 b2 : Nat) (h : 0xF0 ≤ b0) :
    validUtf8 [b0, b1, b2] = false := by
  rw [validUtf8]
  rw [if_neg (by omega : ¬b0 ≤ 0x7F), if_neg (by omega : ¬(0xC2 ≤ b0 ∧ b0 ≤ 0xDF)),
    if_neg (by omega : ¬(0xE0 ≤ b0 ∧ b0 ≤ 0xEF))]

theorem validUtf8_take_char_false (c : Str) (h : goodChar c = true) (k : Nat)
    (h1 : 1 ≤ k) (h2 : k < c.length) : validUtf8 (c.take k) = false := by
  rcases goodChar_shape c h with ⟨b0, rfl, ha⟩ | ⟨b0, b1, rfl, ha, hb, _⟩ |
    ⟨b0, b1, b2, rfl, ha, hb, _, _⟩ | ⟨b0, b1, b2, b3, rfl, ha, hb, _, _, _⟩
  · simp only [List.length_cons, List.length_nil] at h2; omega
  · simp only [List.length_cons, List.length_nil] at h2
    have hk : k = 1 := by omega
    subst hk
    show validUtf8 [b0] = false
    exact validUtf8_one_lead b0 (by omega)
  · simp only [List.length_cons, List.length_nil] at h2
    have hk : k = 1 ∨ k = 2 := by omega
    rcases hk with hk | hk <;> subst hk
    · show validUtf8 [b0] = false
      exact validUtf8_one_lead b0 (by omega)
    · show validUtf8 [b0, b1] = false
      exact validUtf8_two_lead b0 b1 (by omega)
  · simp only [List.length_cons, List.length_nil] at h2
    have hk : k = 1 ∨ k = 2 ∨ k = 3 := by omega
    rcases hk with hk | hk | hk <;> subst hk
    · show validUtf8 [b0] = false
      exact validUtf8_one_lead b0 (by omega)
    · show validUtf8 [b0, b1] = false
      exact validUtf8_two_lead b0 b1 (by omega)
    · show validUtf8 [b0, b1, b2] = false
      exact validUtf8_three_lead b0 b1 b2 (by omega)

theorem valid_prefix_lt_width (c t p : Str) (hc : goodChar c = true)
    (hp : p <+: c ++ t) (hv : validUtf8 p = true) (hlt : p.length < c.length) :
    p = [] := by
  by_contra hne
  have hp1 : 1 ≤ p.length := by
    cases p with
    | nil => exact absurd rfl hne
    | cons a as => simp
  have hpc : p <+: c :=
    List.prefix_of_prefix_length_le hp (List.prefix_append c t) (le_of_lt hlt)
  have heq : p = c.take p.length := List.prefix_iff_eq_take.mp hpc
  have hfalse := validUtf8_take_char_false c hc p.length hp1 hlt
  rw [← heq, hv] at hfalse
  simp at hfalse

theorem goodChar_ne_nil (c : Str) (hc : goodChar c = true) : c ≠ [] := by
  intro h; subst h; simp [goodChar] at hc

theorem dropTailInvalid_char_append_aux (c : Str) (hc : goodChar c = true) :
    ∀ n (u : Str), u.length ≤ n →
      dropTailInvalid (c ++ u) = c ++ dropTailInvalid u := by
  intro n
  induction n with
  | zero =>
    intro u hu
    have : u = [] := List.length_eq_zero.mp (Nat.le_zero.mp hu)
    subst this
    rw [dropTailInvalid_unfold (c ++ [])]
    have hval : validUtf8 (c ++ []) = true := by
      rw [validUtf8_append_char c [] hc]; rfl
    rw [if_pos (Or.inr hval)]
    rfl
  | succ n ih =>
    intro u hu
    rw [dropTailInvalid_unfold (c ++ u), dropTailInvalid_unfold u]
    have hval : validUtf8 (c ++ u) = validUtf8 u := validUtf8_append_char c u hc
    by_cases hu0 : u = []
    · subst hu0
      have hv : validUtf8 (c ++ ([] : Str)) = true := by rw [hval]; rfl
      rw [if_pos (Or.inr hv)]
      simp
    · by_cases huv : validUtf8 u = true
      · rw [if_pos (Or.inr (hval.trans huv)), if_pos (Or.inr huv)]
      · have hcu : c ++ u ≠ [] := by
          simp [goodChar_ne_nil c hc]
        rw [if_neg (by push_neg; exact ⟨hcu, by rw [hval]; simpa using huv⟩),
          if_neg (by push_neg; exact ⟨hu0, by simpa using huv⟩)]
        rw [List.dropLast_append_of_ne_nil c hu0]
        apply ih
        have : 1 ≤ u.length := by
          cases u with
          | nil => exact absurd rfl hu0
          | cons a as => simp
        rw [List.length_dropLast]; omega

theorem dropTailInvalid_char_append (c : Str) (hc : goodChar c = true) (u : Str) :
    dropTailInvalid (c ++ u) = c ++ dropTailInvalid u :=
  dropTailInvalid_char_append_aux c hc u.length u le_rfl

theorem firstCharWidth_char_append (c t : Str) (hc : goodChar c = true) :
    firstCharWidth (c ++ t) = c.length := by
  rcases goodChar_shape c hc with ⟨b0, rfl, h1⟩ | ⟨b0, b1, rfl, h1, h2, h3⟩ |
    ⟨b0, b1, b2, rfl, h1, h2, h3, h4⟩ | ⟨b0, b1, b2, b3, rfl, h1, h2, h3, h4, h5⟩
  · simp only [List.cons_append, List.nil_append]
    match t with
    | [] => simp [firstCharWidth, h1]
    | [c1] => rw [firstCharWidth]; rw [if_pos h1]; rfl
    | [c1, c2] => rw [firstCharWidth]; rw [if_pos h1]; rfl
    | c1 :: c2 :: c3 :: t2 => rw [firstCharWidth]; rw [if_pos h1]; rfl
  · simp only [List.cons_append, List.nil_append]
    match t with
    | [] =>
      rw [firstCharWidth]
      rw [if_neg (by omega : ¬b0 ≤ 0x7F), if_pos ⟨h1, h2⟩, h3]
      rfl
    | [c1] =>
      rw [firstCharWidth]
      rw [if_neg (by omega : ¬b0 ≤ 0x7F), if_pos ⟨h1, h2⟩, h3]
      rfl
    | c1 :: c2 :: t2 =>
      rw [firstCharWidth]
      rw [if_neg (by omega : ¬b0 ≤ 0x7F), if_pos ⟨h1, h2⟩, h3]
      rfl
  · simp only [List.cons_append, List.nil_append]
    match t with
    | [] =>
      rw [firstCharWidth]
      rw [if_neg (by omega : ¬b0 ≤ 0x7F),
        if_neg (by omega : ¬(0xC2 ≤ b0 ∧ b0 ≤ 0xDF)), if_pos ⟨h1, h2⟩,
        if_pos (by simp [h3, h4])]
      rfl
    | c1 :: t2 =>
      rw [firstCharWidth]
      rw [if_neg (by omega : ¬b0 ≤ 0x7F),
        if_neg (by omega : ¬(0xC2 ≤ b0 ∧ b0 ≤ 0xDF)), if_pos ⟨h1, h2⟩,
        if_pos (by simp [h3, h4])]
      rfl
  · simp only [List.cons_append, List.nil_append]
    rw [firstCharWidth]
    rw [if_neg (by omega : ¬b0 ≤ 0x7F),
      if_neg (by omega : ¬(0xC2 ≤ b0 ∧ b0 ≤ 0xDF)),
      if_neg (by omega : ¬(0xE0 ≤ b0 ∧ b0 ≤ 0xEF)), if_pos ⟨h1, h2⟩,
      if_pos (by simp [h3, h4, h5])]
    rfl

theorem chars_of_valid : ∀ n (s : Str), s.length ≤ n → validUtf8 s = true → Chars s := by
  intro n
  induction n with
  | zero =>
    intro s hl _
    have : s = [] := List.length_eq_zero.mp (Nat.le_zero.mp hl)
    subst this; exact Chars.nil
  | succ n ih =>
    intro s hl hv
    match s with
    | [] => exact Chars.nil
    | b0 :: rest =>
      simp only [List.length_cons] at hl
      by_cases h1 : b0 ≤ 0x7F
      · rw [valid_cons_ascii b0 rest h1] at hv
        have hr := ih rest (by omega) hv
        exact Chars.cons [b0] rest (by simp [goodChar, h1]) hr
      · match rest with
        | [] =>
          simp only [validUtf8, decide_eq_true_eq] at hv
          exact absurd hv h1
        | b1 :: rest2 =>
          by_cases h2 : 0xC2 ≤ b0 ∧ b0 ≤ 0xDF
          · have hcont : isContB b1 = true ∧ validUtf8 rest2 = true := by
              match rest2 with
              | [] =>
                rw [validUtf8] at hv
                rw [if_neg h1, if_pos h2] at hv
                exact ⟨hv, rfl⟩
              | [c1] =>
                rw [validUtf8] at hv
                rw [if_neg h1, if_pos h2] at hv
                simpa [Bool.and_eq_true] using hv
              | c1 :: c2 :: t2 =>
                rw [validUtf8] at hv
                rw [if_neg h1, if_pos h2] at hv
                simpa [Bool.and_eq_true] using hv
            simp only [List.length_cons] at hl
            have hr := ih rest2 (by omega) hcont.2
            exact Chars.cons [b0, b1] rest2
              (by
                simp only [goodChar, Bool.and_eq_true, decide_eq_true_eq]
                exact ⟨⟨h2.1, h2.2⟩, hcont.1⟩) hr
          · match rest2 with
            | [] =>
              rw [validUtf8] at hv
              rw [if_neg h1, if_neg h2] at hv
              simp at hv
            | b2 :: rest3 =>
              by_cases h3 : 0xE0 ≤ b0 ∧ b0 ≤ 0xEF
              · have hcont : accept3 b0 b1 = true ∧ isContB b2 = true ∧
                    validUtf8 rest3 = true := by
                  match rest3 with
                  | [] =>
                    rw [validUtf8] at hv
                    rw [if_neg h1, if_neg h2, if_pos h3] at hv
                    simp only [Bool.and_eq_true] at hv
                    exact ⟨hv.1, hv.2, rfl⟩
                  | c1 :: t2 =>
                    rw [validUtf8] at hv
                    rw [if_neg h1, if_neg h2, if_pos h3] at hv
                    simp only [Bool.and_eq_true] at hv
                    exact ⟨hv.1.1, hv.1.2, hv.2⟩
                simp only [List.length_cons] at hl
                have hr := ih rest3 (by omega) hcont.2.2
                exact Chars.cons [b0, b1, b2] rest3
                  (by
                    simp only [goodChar, Bool.and_eq_true, decide_eq_true_eq]
                    exact ⟨⟨⟨h3.1, h3.2⟩, hcont.1⟩, hcont.2.1⟩) hr
              · match rest3 with
                | [] =>
                  rw [validUtf8] at hv
                  rw [if_neg h1, if_neg h2, if_neg h3] at hv
                  simp at hv
                | b3 :: rest4 =>
                  by_cases h4 : 0xF0 ≤ b0 ∧ b0 ≤ 0xF4
                  · rw [validUtf8] at hv
                    rw [if_neg h1, if_neg h2, if_neg h3, if_pos h4] at hv
                    simp only [Bool.and_eq_true] at hv
                    obtain ⟨⟨⟨ha, hb⟩, hcc⟩, hd⟩ := hv
                    simp only [List.length_cons] at hl
                    have hr := ih rest4 (by omega) hd
                    exact Chars.cons [b0, b1, b2, b3] rest4
                      (by
                        simp only [goodChar, Bool.and_eq_true, decide_eq_true_eq]
                        exact ⟨⟨⟨⟨h4.1, h4.2⟩, ha⟩, hb⟩, hcc⟩) hr
                  · rw [validUtf8] at hv
                    rw [if_neg h1, if_neg h2, if_neg h3, if_neg h4] at hv
                    simp at hv

theorem dropTail_take_longest (s : Str) (hs : Chars s) :
    ∀ j (p : Str), p <+: s → validUtf8 p = true → p.length ≤ j →
      p.length ≤ (dropTailInvalid (s.take j)).length := by
  induction hs with
  | nil =>
    intro j p hp _ _
    have : p = [] := List.prefix_nil.mp hp
    subst this; exact Nat.zero_le _
  | cons c t hc hct ih =>
    intro j p hp hv hj
    by_cases hw : c.length ≤ j
    · have htake : (c ++ t).take j = c ++ t.take (j - c.length) := by
        rw [List.take_append_eq_append_take, List.take_of_length_le hw]
      rw [htake, dropTailInvalid_char_append c hc, List.length_append]
      by_cases hpw : p.length < c.length
      · have : p = [] := valid_prefix_lt_width c t p hc hp hv hpw
        subst this; exact Nat.zero_le _
      · push_neg at hpw
        have hcp : c <+: p :=
          List.prefix_of_prefix_length_le (List.prefix_append c t) hp hpw
        obtain ⟨q, rfl⟩ := hcp
        have hqt : q <+: t := (List.prefix_append_right_inj c).mp hp
        have hv' : validUtf8 q = true := by
          rw [validUtf8_append_char c q hc] at hv; exact hv
        have hq : q.length ≤ j - c.length := by
          simp only [List.length_append] at hj; omega
        have := ih (j - c.length) q hqt hv' hq
        simp only [List.length_append]
        omega
    · push_neg at hw
      have hpw : p.length < c.length := lt_of_le_of_lt hj hw
      have : p = [] := valid_prefix_lt_width c t p hc hp hv hpw
      subst this; exact Nat.zero_le _

/-- C4 counterexample: at the one-byte string 0xFF and budget 0 the claim
fails — `truncateToBytes` returns the string unchanged (the code treats a
non-positive budget as "no limit"), so the result has byte length 1 > 0 and
is not valid UTF-8. -/
theorem truncate_byte_budget_counterexample :
    truncateToBytes [0xFF] 0 = [0xFF] ∧
    ¬(((truncateToBytes [0xFF] 0).length : Int) ≤ 0) ∧
    validUtf8 (truncateToBytes [0xFF] 0) = false := by
  refine ⟨by decide, by decide, by decide⟩

/-- C4 (amended): for every byte budget b ≥ 1 and every string s,
`truncateToBytes s b` has byte length at most b, is valid UTF-8 whenever s
is, and equals s whenever s already fits in b bytes. -/
theorem truncate_byte_budget_amended (s : Str) (b : Int) (hb : 1 ≤ b) :
    ((truncateToBytes s b).length : Int) ≤ b ∧
    (validUtf8 s = true → validUtf8 (truncateToBytes s b) = true) ∧
    ((s.length : Int) ≤ b → truncateToBytes s b = s) := by
  by_cases hcond : b ≤ 0 ∨ (s.length : Int) ≤ b
  · rw [truncateToBytes, if_pos hcond]
    have hfits : (s.length : Int) ≤ b := by
      rcases hcond with h | h
      · omega
      · exact h
    exact ⟨hfits, fun h => h, fun _ => rfl⟩
  · rw [truncateToBytes, if_neg hcond]
    push_neg at hcond
    refine ⟨?_, fun _ => dropTailInvalid_valid _, fun h => absurd h (by omega)⟩
    have h1 : (dropTailInvalid (s.take b.toNat)).length ≤ (s.take b.toNat).length :=
      (dropTailInvalid_pref _).length_le
    have h2 : (s.take b.toNat).length ≤ b.toNat := by
      simp [List.length_take]
    omega

/-- Witness for C4 (amended) at s = the two-byte encoding of U+00E9 and
b = 1: the budget cuts inside the character and the result is empty. -/
theorem truncate_byte_budget_amended_witness :
    (1 : Int) ≤ 1 ∧
    (((truncateToBytes [0xC3, 0xA9] 1).length : Int) ≤ 1 ∧
      (validUtf8 [0xC3, 0xA9] = true → validUtf8 (truncateToBytes [0xC3, 0xA9] 1) = true) ∧
      ((([0xC3, 0xA9] : Str).length : Int) ≤ 1 → truncateToBytes [0xC3, 0xA9] 1 = [0xC3, 0xA9])) :=
  ⟨by decide, truncate_byte_budget_amended [0xC3, 0xA9] 1 (by decide)⟩

/-- C5: for a valid UTF-8 string s, `truncateToBytes` returns s unchanged
when the budget is non-positive or s fits; otherwise it returns the longest
valid-UTF-8 prefix of s within the budget; and a positive budget smaller
than the first character's encoded width yields the empty string. -/
theorem truncate_longest_valid_prefix_spec (s : Str) (b : Int)
    (hs : validUtf8 s = true) :
    ((b ≤ 0 ∨ (s.length : Int) ≤ b) → truncateToBytes s b = s) ∧
    (0 < b → b < (s.length : Int) →
      truncateToBytes s b <+: s ∧
      validUtf8 (truncateToBytes s b) = true ∧
      ((truncateToBytes s b).length : Int) ≤ b ∧
      ∀ p : Str, p <+: s → validUtf8 p = true → (p.length : Int) ≤ b →
        p.length ≤ (truncateToBytes s b).length) ∧
    (0 < b → b < (firstCharWidth s : Int) → truncateToBytes s b = []) := by
  refine ⟨?_, ?_, ?_⟩
  · intro h
    rw [truncateToBytes, if_pos h]
  · intro hb hlen
    have hcond : ¬(b ≤ 0 ∨ (s.length : Int) ≤ b) := by omega
    rw [truncateToBytes, if_neg hcond]
    refine ⟨(dropTailInvalid_pref _).trans (List.take_prefix _ s),
      dropTailInvalid_valid _, ?_, ?_⟩
    · have h1 : (dropTailInvalid (s.take b.toNat)).length ≤ (s.take b.toNat).length :=
        (dropTailInvalid_pref _).length_le
      have h2 : (s.take b.toNat).length ≤ b.toNat := by
        simp [List.length_take]
      omega
    · intro p hp hv hpl
      have hchars := chars_of_valid s.length s le_rfl hs
      exact dropTail_take_longest s hchars b.toNat p hp hv (by omega)
  · intro hb hw
    have hchars := chars_of_valid s.length s le_rfl hs
    cases hchars with
    | nil =>
      have h0 : firstCharWidth ([] : Str) = 0 := rfl
      rw [h0] at hw
      omega
    | cons c t hc hct =>
      have hwidth : firstCharWidth (c ++ t) = c.length :=
        firstCharWidth_char_append c t hc
      rw [hwidth] at hw
      have hclen : c.length ≤ (c ++ t).length := by
        rw [List.length_append]; omega
      have hcond : ¬(b ≤ 0 ∨ ((c ++ t).length : Int) ≤ b) := by
        push_neg
        constructor
        · omega
        · have : (c.length : Int) ≤ ((c ++ t).length : Int) := by exact_mod_cast hclen
          omega
      rw [truncateToBytes, if_neg hcond]
      apply valid_prefix_lt_width c t _ hc
      · exact (dropTailInvalid_pref _).trans (List.take_prefix _ _)
      · exact dropTailInvalid_valid _
      · have h1 : (dropTailInvalid ((c ++ t).take b.toNat)).length ≤
            ((c ++ t).take b.toNat).length :=
          (dropTailInvalid_pref _).length_le
        have h2 : ((c ++ t).take b.toNat).length ≤ b.toNat := by
          simp [List.length_take]
        omega

/-- Witness for C5 at s = "a" followed by the two-byte encoding of U+00E9,
with budget 2 (which cuts inside the second character). -/
theorem truncate_longest_valid_prefix_spec_witness :
    validUtf8 [0x61, 0xC3, 0xA9] = true ∧
    ((((2 : Int) ≤ 0 ∨ (([0x61, 0xC3, 0xA9] : Str).length : Int) ≤ 2) →
        truncateToBytes [0x61, 0xC3, 0xA9] 2 = [0x61, 0xC3, 0xA9]) ∧
      ((0 : Int) < 2 → (2 : Int) < (([0x61, 0xC3, 0xA9] : Str).length : Int) →
        truncateToBytes [0x61, 0xC3, 0xA9] 2 <+: [0x61, 0xC3, 0xA9] ∧
        validUtf8 (truncateToBytes [0x61, 0xC3, 0xA9] 2) = true ∧
        ((truncateToBytes [0x61, 0xC3, 0xA9] 2).length : Int) ≤ 2 ∧
        ∀ p : Str, p <+: [0x61, 0xC3, 0xA9] → validUtf8 p = true →
          (p.length : Int) ≤ 2 →
          p.length ≤ (truncateToBytes [0x61, 0xC3, 0xA9] 2).length) ∧
      ((0 : Int) < 2 → (2 : Int) < (firstCharWidth [0x61, 0xC3, 0xA9] : Int) →
        truncateToBytes [0x61, 0xC3, 0xA9] 2 = [])) :=
  ⟨by decide, truncate_longest_valid_prefix_spec [0x61, 0xC3, 0xA9] 2 (by decide)⟩

theorem summarize_redacted_result (ollama : Settings → Input → Except Str Summary)
    (now : Str) (settings : Settings) (input : Input) (redactionLevel : Str)
    (h1 : toLower (trimSpace redactionLevel) ≠ [])
    (h2 : toLower (trimSpace redactionLevel) ≠ strOf "none") :
    Summarize ollama now settings input redactionLevel =
      Except.ok
        { IncidentID := input.Bundle.IncidentID,
          SummaryMarkdown := strOf "Summary redacted by policy.",
          Highlights := [strOf "redacted"],
          ActionItems := [strOf "request approval to view full details"],
          Confidence := mkRat 2 5,
          Model := strOf "mock-redacted",
          ArtifactPtr := [] } := by
  rw [Summarize]
  dsimp only
  rw [if_pos ⟨h1, h2⟩]
  rw [SummarizeMock]
  dsimp only
  rw [if_pos ⟨h1, h2⟩]

/-- C3: whenever the trimmed lower-cased redaction level is neither empty
nor "none", `Summarize` succeeds with the fixed policy-safe placeholder
(static text, a lone "redacted" highlight, one generic action item, model
tag "mock-redacted") no matter which backend or settings are configured;
consequently any two inputs with the same bundle incident id produce the
identical summary, so no evidence content reaches the output. -/
theorem summarize_redaction_fixed_placeholder
    (ollama : Settings → Input → Except Str Summary)
    (now : Str) (settings : Settings) (input : Input) (redactionLevel : Str)
    (h1 : toLower (trimSpace redactionLevel) ≠ [])
    (h2 : toLower (trimSpace redactionLevel) ≠ strOf "none") :
    Summarize ollama now settings input redactionLevel =
      Except.ok
        { IncidentID := input.Bundle.IncidentID,
          SummaryMarkdown := strOf "Summary redacted by policy.",
          Highlights := [strOf "redacted"],
          ActionItems := [strOf "request approval to view full details"],
          Confidence := mkRat 2 5,
          Model := strOf "mock-redacted",
          ArtifactPtr := [] } ∧
    ∀ (ollama2 : Settings → Input → Except Str Summary) (now2 : Str)
      (settings2 : Settings) (input2 : Input) (redactionLevel2 : Str),
      toLower (trimSpace redactionLevel2) ≠ [] →
      toLower (trimSpace redactionLevel2) ≠ strOf "none" →
      input2.Bundle.IncidentID = input.Bundle.IncidentID →
      Summarize ollama2 now2 settings2 input2 redactionLevel2 =
        Summarize ollama now settings input redactionLevel := by
  refine ⟨summarize_redacted_result ollama now settings input redactionLevel h1 h2, ?_⟩
  intro ollama2 now2 settings2 input2 redactionLevel2 g1 g2 gid
  rw [summarize_redacted_result ollama2 now2 settings2 input2 redactionLevel2 g1 g2,
    summarize_redacted_result ollama now settings input redactionLevel h1 h2, gid]

/-- Witness for C3 at redaction level "secrets" and incident INC-1. -/
theorem summarize_redaction_fixed_placeholder_witness :
    (toLower (trimSpace (strOf "secrets")) ≠ [] ∧
      toLower (trimSpace (strOf "secrets")) ≠ strOf "none") ∧
    (Summarize failBackend [] {} sampleInput (strOf "secrets") =
      Except.ok
        { IncidentID := sampleInput.Bundle.IncidentID,
          SummaryMarkdown := strOf "Summary redacted by policy.",
          Highlights := [strOf "redacted"],
          ActionItems := [strOf "request approval to view full details"],
          Confidence := mkRat 2 5,
          Model := strOf "mock-redacted",
          ArtifactPtr := [] } ∧
      ∀ (ollama2 : Settings → Input → Except Str Summary) (now2 : Str)
        (settings2 : Settings) (input2 : Input) (redactionLevel2 : Str),
        toLower (trimSpace redactionLevel2) ≠ [] →
        toLower (trimSpace redactionLevel2) ≠ strOf "none" →
        input2.Bundle.IncidentID = sampleInput.Bundle.IncidentID →
        Summarize ollama2 now2 settings2 input2 redactionLevel2 =
          Summarize failBackend [] {} sampleInput (strOf "secrets")) :=
  ⟨⟨by decide, by decide⟩,
    summarize_redaction_fixed_placeholder failBackend [] {} sampleInput
      (strOf "secrets") (by decide) (by decide)⟩

/-- C9 counterexample: an empty provider name does not yield a
configuration error — `Summarize` silently dispatches to the mock backend
and succeeds. -/
theorem summarize_provider_empty_counterexample :
    Summarize failBackend [] { Provider := ([] : Str) } {} [] =
      Except.ok (SummarizeMock [] {} []) ∧
    (Summarize failBackend [] { Provider := ([] : Str) } {} []).isOk = true :=
  ⟨rfl, rfl⟩

/-- C9 (amended): with no redaction active, the trimmed lower-cased
provider name dispatches as follows — empty or "mock" goes to the mock
backend (the empty string is a silent mock fallback, not an error),
"openai" surfaces the openai configuration error, "ollama" dispatches to
the ollama backend, and every other name is an immediate configuration
error. -/
theorem summarize_provider_dispatch_amended
    (ollama : Settings → Input → Except Str Summary)
    (now : Str) (settings : Settings) (input : Input) (redactionLevel : Str)
    (hred : toLower (trimSpace redactionLevel) = [] ∨
      toLower (trimSpace redactionLevel) = strOf "none") :
    (toLower (trimSpace settings.Provider) = [] ∨
        toLower (trimSpace settings.Provider) = strOf "mock" →
      Summarize ollama now settings input redactionLevel =
        Except.ok (SummarizeMock now input redactionLevel)) ∧
    (toLower (trimSpace settings.Provider) = strOf "openai" →
      Summarize ollama now settings input redactionLevel =
        Except.error (strOf "openai summarizer not configured")) ∧
    (toLower (trimSpace settings.Provider) = strOf "ollama" →
      Summarize ollama now settings input redactionLevel =
        ollama settings input) ∧
    (toLower (trimSpace settings.Provider) ≠ [] →
      toLower (trimSpace settings.Provider) ≠ strOf "mock" →
      toLower (trimSpace settings.Provider) ≠ strOf "openai" →
      toLower (trimSpace settings.Provider) ≠ strOf "ollama" →
      Summarize ollama now settings input redactionLevel =
        Except.error (strOf "unsupported llm provider: " ++ settings.Provider)) := by
  have hni : ¬(toLower (trimSpace redactionLevel) ≠ [] ∧
      toLower (trimSpace redactionLevel) ≠ strOf "none") := by
    rcases hred with h | h
    · exact fun hc => hc.1 h
    · exact fun hc => hc.2 h
  refine ⟨?_, ?_, ?_, ?_⟩
  · intro hp
    rw [Summarize]; dsimp only
    rw [if_neg hni, if_pos hp]
  · intro hp
    rw [Summarize]; dsimp only
    rw [if_neg hni, hp]
    rw [if_neg (by decide), if_pos rfl]
    rfl
  · intro hp
    rw [Summarize]; dsimp only
    rw [if_neg hni, hp]
    rw [if_neg (by decide), if_neg (by decide), if_pos rfl]
  · intro g1 g2 g3 g4
    rw [Summarize]; dsimp only
    rw [if_neg hni, if_neg (by push_neg; exact ⟨g1, g2⟩), if_neg g3, if_neg g4]

/-- Witness for C9 (amended) with provider "custom" and no redaction. -/
theorem summarize_provider_dispatch_amended_witness :
    (toLower (trimSpace ([] : Str)) = [] ∨
      toLower (trimSpace ([] : Str)) = strOf "none") ∧
    ((toLower (trimSpace (strOf "custom")) = [] ∨
        toLower (trimSpace (strOf "custom")) = strOf "mock" →
      Summarize failBackend [] { Provider := strOf "custom" } sampleInput [] =
        Except.ok (SummarizeMock [] sampleInput [])) ∧
    (toLower (trimSpace (strOf "custom")) = strOf "openai" →
      Summarize failBackend [] { Provider := strOf "custom" } sampleInput [] =
        Except.error (strOf "openai summarizer not configured")) ∧
    (toLower (trimSpace (strOf "custom")) = strOf "ollama" →
      Summarize failBackend [] { Provider := strOf "custom" } sampleInput [] =
        failBackend { Provider := strOf "custom" } sampleInput) ∧
    (toLower (trimSpace (strOf "custom")) ≠ [] →
      toLower (trimSpace (strOf "custom")) ≠ strOf "mock" →
      toLower (trimSpace (strOf "custom")) ≠ strOf "openai" →
      toLower (trimSpace (strOf "custom")) ≠ strOf "ollama" →
      Summarize failBackend [] { Provider := strOf "custom" } sampleInput [] =
        Except.error (strOf "unsupported llm provider: " ++ strOf "custom"))) :=
  ⟨by decide,
    summarize_provider_dispatch_amended failBackend []
      { Provider := strOf "custom" } sampleInput [] (by decide)⟩


/-- C7: given a successful backend round-trip, summary recovery never
errors on malformed output — when the trimmed reply is non-empty the
result is always ok, and when recovery fails entirely the summary is the
trimmed reply verbatim with empty highlights and action items; an empty
trimmed reply is an error. -/
theorem ollama_degradation (incidentId model reply : Str) :
    (trimSpace reply ≠ [] →
      (ollamaFinish incidentId model reply).isOk = true ∧
      (parseSummaryJSON (trimSpace reply) = none →
        ollamaFinish incidentId model reply =
          Except.ok
            { IncidentID := incidentId,
              SummaryMarkdown := trimSpace reply,
              Highlights := [], ActionItems := [], Confidence := 0,
              Model := strOf "ollama:" ++ model, ArtifactPtr := [] })) ∧
    (trimSpace reply = [] →
      ollamaFinish incidentId model reply =
        Except.error (strOf "ollama response empty")) := by
  constructor
  · intro hne
    constructor
    · rw [ollamaFinish]
      dsimp only
      rw [if_neg hne]
      cases hp : parseSummaryJSON (trimSpace reply) with
      | none =>
        dsimp only
        split <;> rfl
      | some payload =>
        dsimp only
        split <;> rfl
    · intro hparse
      rw [ollamaFinish]
      dsimp only
      rw [if_neg hne, hparse]
      dsimp only
      rw [if_pos rfl]
  · intro he
    rw [ollamaFinish]
    dsimp only
    rw [if_pos he]

/-- Witness for C7 at the non-JSON reply " hello ". -/
theorem ollama_degradation_witness :
    ((trimSpace (strOf " hello ") ≠ [] →
      (ollamaFinish (strOf "I") (strOf "m") (strOf " hello ")).isOk = true ∧
      (parseSummaryJSON (trimSpace (strOf " hello ")) = none →
        ollamaFinish (strOf "I") (strOf "m") (strOf " hello ") =
          Except.ok
            { IncidentID := strOf "I",
              SummaryMarkdown := trimSpace (strOf " hello "),
              Highlights := [], ActionItems := [], Confidence := 0,
              Model := strOf "ollama:" ++ strOf "m", ArtifactPtr := [] })) ∧
    (trimSpace (strOf " hello ") = [] →
      ollamaFinish (strOf "I") (strOf "m") (strOf " hello ") =
        Except.error (strOf "ollama response empty"))) ∧
    trimSpace (strOf " hello ") ≠ [] ∧
    parseSummaryJSON (trimSpace (strOf " hello ")) = none :=
  ⟨ollama_degradation (strOf "I") (strOf "m") (strOf " hello "),
    by decide, by decide⟩

theorem truncate_length_le (s : Str) (b : Int) (hb : 1 ≤ b) :
    ((truncateToBytes s b).length : Int) ≤ b := by
  by_cases hcond : b ≤ 0 ∨ (s.length : Int) ≤ b
  · rw [truncateToBytes, if_pos hcond]
    rcases hcond with h | h
    · omega
    · exact h
  · rw [truncateToBytes, if_neg hcond]
    have h1 : (dropTailInvalid (s.take b.toNat)).length ≤ (s.take b.toNat).length :=
      (dropTailInvalid_pref _).length_le
    have h2 : (s.take b.toNat).length ≤ b.toNat := by
      simp [List.length_take]
    omega

theorem collectGo_length (fetch : Str → Option FetchResult) (mi mb : Int) :
    ∀ (items : List EvidenceItem) (out : List EvidenceText) (total : Int),
      (out.length : Int) ≤ mi →
      ((collectGo fetch mi mb items out total).length : Int) ≤ mi := by
  intro items
  induction items with
  | nil => intro out total h; exact h
  | cons item items ih =>
    intro out total h
    rw [collectGo]
    by_cases h1 : item.ArtifactPtr = []
    · rw [if_pos h1]; exact ih out total h
    · rw [if_neg h1]
      by_cases h2 : mi ≤ (out.length : Int) ∨ mb ≤ total
      · rw [if_pos h2]; exact h
      · rw [if_neg h2]
        cases hf : fetch item.ArtifactPtr with
        | none => dsimp only; exact ih out total h
        | some fr =>
          dsimp only
          split
          · exact ih out total h
          · split
            · exact h
            · apply ih
              push_neg at h2
              simp only [List.length_append, List.length_cons, List.length_nil]
              push_cast
              omega

theorem collectGo_bytes (fetch : Str → Option FetchResult) (mi mb : Int) :
    ∀ (items : List EvidenceItem) (out : List EvidenceText) (total : Int),
      total ≤ mb →
      (sumContent (collectGo fetch mi mb items out total) : Int) ≤
        (sumContent out : Int) + (mb - total) := by
  intro items
  induction items with
  | nil => intro out total h; simp only [collectGo]; omega
  | cons item items ih =>
    intro out total h
    rw [collectGo]
    by_cases h1 : item.ArtifactPtr = []
    · rw [if_pos h1]; exact ih out total h
    · rw [if_neg h1]
      by_cases h2 : mi ≤ (out.length : Int) ∨ mb ≤ total
      · rw [if_pos h2]; omega
      · rw [if_neg h2]
        cases hf : fetch item.ArtifactPtr with
        | none => dsimp only; exact ih out total h
        | some fr =>
          dsimp only
          split
          · exact ih out total h
          · split
            · omega
            · rename_i hrem
              push_neg at hrem
              set t2 := truncateToBytes
                (trimSpace (extractEvidenceText fr.content
                  (resolveCT item.ContentType fr.contentTypeMeta)))
                (mb - total) with ht2
              have hlen : ((t2.length : Int)) ≤ mb - total := by
                rw [ht2]
                exact truncate_length_le _ _ (by omega)
              have hih := ih
                (out ++ [{ Kind := item.Kind, Title := item.Title,
                           ArtifactPtr := item.ArtifactPtr,
                           ContentType := resolveCT item.ContentType fr.contentTypeMeta,
                           Content := t2 }])
                (total + (t2.length : Int)) (by omega)
              simp only [sumContent, List.map_append, List.sum_append,
                List.map_cons, List.map_nil, List.sum_cons, List.sum_nil] at hih ⊢
              push_cast at hih ⊢
              omega

theorem collectGo_sublist (fetch : Str → Option FetchResult) (mi mb : Int) :
    ∀ (items : List EvidenceItem) (out : List EvidenceText) (total : Int),
      ∃ extra, collectGo fetch mi mb items out total = out ++ extra ∧
        List.Sublist (extra.map (fun e => e.ArtifactPtr))
          (items.map (fun i => i.ArtifactPtr)) := by
  intro items
  induction items with
  | nil =>
    intro out total
    exact ⟨[], by simp [collectGo], List.nil_sublist _⟩
  | cons item items ih =>
    intro out total
    rw [collectGo]
    by_cases h1 : item.ArtifactPtr = []
    · rw [if_pos h1]
      obtain ⟨extra, heq, hsub⟩ := ih out total
      exact ⟨extra, heq, hsub.cons _⟩
    · rw [if_neg h1]
      by_cases h2 : mi ≤ (out.length : Int) ∨ mb ≤ total
      · rw [if_pos h2]
        exact ⟨[], by simp, List.nil_sublist _⟩
      · rw [if_neg h2]
        cases hf : fetch item.ArtifactPtr with
        | none =>
          dsimp only
          obtain ⟨extra, heq, hsub⟩ := ih out total
          exact ⟨extra, heq, hsub.cons _⟩
        | some fr =>
          dsimp only
          split
          · obtain ⟨extra, heq, hsub⟩ := ih out total
            exact ⟨extra, heq, hsub.cons _⟩
          · split
            · exact ⟨[], by simp, List.nil_sublist _⟩
            · set t2 := truncateToBytes
                (trimSpace (extractEvidenceText fr.content
                  (resolveCT item.ContentType fr.contentTypeMeta)))
                (mb - total) with ht2
              obtain ⟨extra, heq, hsub⟩ := ih
                (out ++ [{ Kind := item.Kind, Title := item.Title,
                           ArtifactPtr := item.ArtifactPtr,
                           ContentType := resolveCT item.ContentType fr.contentTypeMeta,
                           Content := t2 }])
                (total + (t2.length : Int))
              refine ⟨{ Kind := item.Kind, Title := item.Title,
                        ArtifactPtr := item.ArtifactPtr,
                        ContentType := resolveCT item.ContentType fr.contentTypeMeta,
                        Content := t2 } :: extra, ?_, ?_⟩
              · rw [heq, List.append_assoc]
                rfl
              · simp only [List.map_cons]
                exact List.Sublist.cons₂ _ hsub

/-- C8: with positive budgets, the evidence aggregator returns at most
`maxItems` items, the total content bytes stay within `maxBytes`, and the
returned items' artifact pointers form an order-preserving subsequence of
the bundle's. -/
theorem collect_evidence_budgets (fetch : Str → Option FetchResult)
    (bundle : EvidenceBundle) (maxItems maxBytes : Int)
    (hmi : 0 < maxItems) (hmb : 0 < maxBytes) :
    ((collectEvidenceText fetch bundle maxItems maxBytes).length : Int) ≤ maxItems ∧
    (sumContent (collectEvidenceText fetch bundle maxItems maxBytes) : Int) ≤ maxBytes ∧
    List.Sublist
      ((collectEvidenceText fetch bundle maxItems maxBytes).map (fun e => e.ArtifactPtr))
      (bundle.Evidence.map (fun i => i.ArtifactPtr)) := by
  rw [collectEvidenceText]
  rw [if_neg (by omega : ¬maxItems ≤ 0), if_neg (by omega : ¬maxBytes ≤ 0)]
  refine ⟨collectGo_length fetch maxItems maxBytes bundle.Evidence [] 0 (by simp; omega),
    ?_, ?_⟩
  · have hby := collectGo_bytes fetch maxItems maxBytes bundle.Evidence [] 0 (by omega)
    simp only [sumContent, List.map_nil, List.sum_nil] at hby
    simp only [sumContent]
    omega
  · obtain ⟨extra, heq, hsub⟩ :=
      collectGo_sublist fetch maxItems maxBytes bundle.Evidence [] 0
    rw [heq]
    simpa using hsub

theorem posterHandler_ok_state (cfg : Str) (constraints : PolicyConstraints)
    (f : Faults) (now : Str) (input : PosterInput) (w : PostWorld)
    (r : PostResult) (w2 : PostWorld)
    (h : posterHandler cfg constraints f now input w = (Except.ok r, w2)) :
    assocGet w2.cache
      (strOf "incident-enricher:posted:" ++ input.Incident.IncidentID) = some r ∧
    w2.webhookLog.length ≤ w.webhookLog.length + 1 := by
  rw [posterHandler] at h
  dsimp only at h
  repeat'
    first
      | (rw [finishPost] at h; dsimp only at h)
      | split at h
  all_goals
    first
      | (simp at h; done)
      | (simp only [Prod.mk.injEq, Except.ok.injEq] at h
         obtain ⟨hr, hw⟩ := h
         subst hr
         subst hw
         constructor
         · first
             | assumption
             | simp [assocGet, List.find?]
         · (try dsimp only)
           (try simp only [List.length_append, List.length_cons, List.length_nil])
           omega)

/-- C1: for a non-empty incident id in slack mode, if the first handler
invocation succeeds, a second sequential invocation for the same incident
returns the first invocation's PostResult verbatim from the idempotency
cache and leaves the world unchanged (no further webhook post); across
both invocations the webhook is posted at most once. -/
theorem poster_idempotent_post (cfg : Str) (constraints : PolicyConstraints)
    (f1 f2 : Faults) (now1 now2 : Str) (input : PosterInput)
    (w0 w1 : PostWorld) (r1 : PostResult)
    (hid : trimSpace input.Incident.IncidentID ≠ [])
    (hmode : toLower (trimSpace input.Incident.Destination.Mode) = strOf "slack")
    (hfirst : posterHandler cfg constraints f1 now1 input w0 = (Except.ok r1, w1))
    (hput : f2.putResultFails = false) :
    posterHandler cfg constraints f2 now2 input w1 = (Except.ok r1, w1) ∧
    w1.webhookLog.length ≤ w0.webhookLog.length + 1 := by
  obtain ⟨hcache, hlog⟩ :=
    posterHandler_ok_state cfg constraints f1 now1 input w0 r1 w1 hfirst
  refine ⟨?_, hlog⟩
  rw [posterHandler]
  dsimp only
  rw [if_neg hid, hcache]
  dsimp only
  rw [if_neg (by simp [hput])]

/-- C2: on a fresh (cache-miss) slack invocation whose resolved webhook
host is not in the policy allow-list, the handler fails with the distinct
policy-violation error and the world is untouched — in particular the
webhook sink is never called. -/
theorem poster_host_policy_blocks (cfg : Str) (constraints : PolicyConstraints)
    (f : Faults) (now : Str) (input : PosterInput) (w : PostWorld)
    (hid : trimSpace input.Incident.IncidentID ≠ [])
    (hmiss : assocGet w.cache
      (strOf "incident-enricher:posted:" ++ input.Incident.IncidentID) = none)
    (hmode : toLower (trimSpace input.Incident.Destination.Mode) = strOf "slack")
    (hweb : resolvedWebhook cfg input ≠ [])
    (hhost : HostAllowed constraints (resolvedWebhook cfg input) = false) :
    posterHandler cfg constraints f now input w =
      (Except.error (strOf "webhook host not allowed by policy"), w) ∧
    (posterHandler cfg constraints f now input w).2.webhookLog = w.webhookLog := by
  have hmain : posterHandler cfg constraints f now input w =
      (Except.error (strOf "webhook host not allowed by policy"), w) := by
    rw [posterHandler]
    dsimp only
    rw [if_neg hid, hmiss]
    dsimp only
    rw [hmode]
    rw [if_neg (by decide : ¬(strOf "slack") = ([] : Str))]
    rw [if_pos rfl]
    rw [if_neg hweb, hhost]
    rw [if_pos rfl]
  exact ⟨hmain, by rw [hmain]⟩

/-- Witness for C2 at a webhook host outside the allow-list. -/
theorem poster_host_policy_blocks_witness :
    (trimSpace wBadInput.Incident.IncidentID ≠ [] ∧
      assocGet (({} : PostWorld)).cache
        (strOf "incident-enricher:posted:" ++ wBadInput.Incident.IncidentID) = none ∧
      toLower (trimSpace wBadInput.Incident.Destination.Mode) = strOf "slack" ∧
      resolvedWebhook [] wBadInput ≠ [] ∧
      HostAllowed wCons (resolvedWebhook [] wBadInput) = false) ∧
    (posterHandler [] wCons {} (strOf "T1") wBadInput {} =
      (Except.error (strOf "webhook host not allowed by policy"), {}) ∧
    (posterHandler [] wCons {} (strOf "T1") wBadInput {}).2.webhookLog =
      (({} : PostWorld)).webhookLog) :=
  ⟨⟨by decide, by decide, by decide, by decide, by decide⟩,
    poster_host_policy_blocks [] wCons {} (strOf "T1") wBadInput {}
      (by decide) (by decide) (by decide) (by decide) (by decide)⟩

/-- Witness for C1: a full successful slack post followed by a second
invocation that returns the cached PostResult. -/
theorem poster_idempotent_post_witness :
    (trimSpace wInput.Incident.IncidentID ≠ [] ∧
      toLower (trimSpace wInput.Incident.Destination.Mode) = strOf "slack" ∧
      posterHandler [] wCons {} (strOf "T1") wInput {} =
        (Except.ok wResult1, wWorld1) ∧
      ({} : Faults).putResultFails = false) ∧
    (posterHandler [] wCons {} (strOf "T2") wInput wWorld1 =
      (Except.ok wResult1, wWorld1) ∧
    wWorld1.webhookLog.length ≤ (({} : PostWorld)).webhookLog.length + 1) :=
  ⟨⟨by decide, by decide, by decide, by decide⟩,
    poster_idempotent_post [] wCons {} {} (strOf "T1") (strOf "T2") wInput
      {} wWorld1 wResult1 (by decide) (by decide) (by decide) (by decide)⟩

/-- C10: in slack mode the webhook post happens before the audit upload
and before the idempotency-cache write — if the webhook succeeds but the
upload or the cache write fails, the handler errors with the cache still
unwritten and exactly one webhook post logged, and a later re-invocation
misses the cache and posts the webhook a second time. -/
theorem poster_webhook_before_cache_write (cfg : Str)
    (constraints : PolicyConstraints) (f1 f2 : Faults) (now1 now2 : Str)
    (input : PosterInput) (w0 : PostWorld)
    (hid : trimSpace input.Incident.IncidentID ≠ [])
    (hmiss : assocGet w0.cache
      (strOf "incident-enricher:posted:" ++ input.Incident.IncidentID) = none)
    (hmode : toLower (trimSpace input.Incident.Destination.Mode) = strOf "slack")
    (hweb : resolvedWebhook cfg input ≠ [])
    (hhost : HostAllowed constraints (resolvedWebhook cfg input) = true)
    (h1w : f1.webhookFails = false)
    (hfail : f1.uploadFails = true ∨ (f1.uploadFails = false ∧ f1.cacheSetFails = true))
    (h2w : f2.webhookFails = false) (h2u : f2.uploadFails = false)
    (h2c : f2.cacheSetFails = false) (h2p : f2.putResultFails = false) :
    (posterHandler cfg constraints f1 now1 input w0).1.isOk = false ∧
    (posterHandler cfg constraints f1 now1 input w0).2.webhookLog.length =
      w0.webhookLog.length + 1 ∧
    (posterHandler cfg constraints f1 now1 input w0).2.cache = w0.cache ∧
    (posterHandler cfg constraints f2 now2 input
        (posterHandler cfg constraints f1 now1 input w0).2).2.webhookLog.length =
      w0.webhookLog.length + 2 := by
  rcases hfail with hup | ⟨hup, hcs⟩
  · have hrun1 : posterHandler cfg constraints f1 now1 input w0 =
        (Except.error (strOf "artifact upload failed"),
          { w0 with
              webhookLog := w0.webhookLog ++ [(resolvedWebhook cfg input, composedMessage input)] }) := by
      rw [posterHandler]
      dsimp only
      rw [if_neg hid, hmiss]
      dsimp only
      rw [hmode]
      rw [if_neg (by decide : ¬(strOf "slack") = ([] : Str))]
      rw [if_pos rfl]
      rw [if_neg hweb, hhost]
      rw [if_neg (by simp : ¬(true = false))]
      rw [if_neg (by simp [h1w]), if_pos hup]
    rw [hrun1]
    refine ⟨rfl, by simp, rfl, ?_⟩
    rw [posterHandler]
    dsimp only
    rw [if_neg hid, hmiss]
    dsimp only
    rw [hmode]
    rw [if_neg (by decide : ¬(strOf "slack") = ([] : Str))]
    rw [if_pos rfl]
    rw [if_neg hweb, hhost]
    rw [if_neg (by simp : ¬(true = false))]
    rw [if_neg (by simp [h2w]), if_neg (by simp [h2u])]
    rw [finishPost]
    dsimp only
    rw [if_neg (by simp [h2c]), if_neg (by simp [h2p])]
    simp [List.length_append]
  · have hrun1 : posterHandler cfg constraints f1 now1 input w0 =
        (Except.error (strOf "cache set failed"),
          { w0 with
              webhookLog := w0.webhookLog ++ [(resolvedWebhook cfg input, composedMessage input)],
              uploads := w0.uploads + 1 }) := by
      rw [posterHandler]
      dsimp only
      rw [if_neg hid, hmiss]
      dsimp only
      rw [hmode]
      rw [if_neg (by decide : ¬(strOf "slack") = ([] : Str))]
      rw [if_pos rfl]
      rw [if_neg hweb, hhost]
      rw [if_neg (by simp : ¬(true = false))]
      rw [if_neg (by simp [h1w]), if_neg (by simp [hup])]
      rw [finishPost]
      dsimp only
      rw [if_pos hcs]
    rw [hrun1]
    refine ⟨rfl, by simp, rfl, ?_⟩
    rw [posterHandler]
    dsimp only
    rw [if_neg hid, hmiss]
    dsimp only
    rw [hmode]
    rw [if_neg (by decide : ¬(strOf "slack") = ([] : Str))]
    rw [if_pos rfl]
    rw [if_neg hweb, hhost]
    rw [if_neg (by simp : ¬(true = false))]
    rw [if_neg (by simp [h2w]), if_neg (by simp [h2u])]
    rw [finishPost]
    dsimp only
    rw [if_neg (by simp [h2c]), if_neg (by simp [h2p])]
    simp [List.length_append]

/-- Witness for C10 with an injected artifact-upload failure on the first
invocation and a clean second invocation. -/
theorem poster_webhook_before_cache_write_witness :
    (trimSpace wInput.Incident.IncidentID ≠ [] ∧
      assocGet (({} : PostWorld)).cache
        (strOf "incident-enricher:posted:" ++ wInput.Incident.IncidentID) = none ∧
      toLower (trimSpace wInput.Incident.Destination.Mode) = strOf "slack" ∧
      resolvedWebhook [] wInput ≠ [] ∧
      HostAllowed wCons (resolvedWebhook [] wInput) = true ∧
      wUploadFail.webhookFails = false ∧
      (wUploadFail.uploadFails = true ∨
        (wUploadFail.uploadFails = false ∧ wUploadFail.cacheSetFails = true))) ∧
    ((posterHandler [] wCons wUploadFail (strOf "T1") wInput {}).1.isOk = false ∧
    (posterHandler [] wCons wUploadFail (strOf "T1") wInput {}).2.webhookLog.length =
      (({} : PostWorld)).webhookLog.length + 1 ∧
    (posterHandler [] wCons wUploadFail (strOf "T1") wInput {}).2.cache =
      (({} : PostWorld)).cache ∧
    (posterHandler [] wCons {} (strOf "T2") wInput
        (posterHandler [] wCons wUploadFail (strOf "T1") wInput {}).2).2.webhookLog.length =
      (({} : PostWorld)).webhookLog.length + 2) :=
  ⟨⟨by decide, by decide, by decide, by decide, by decide, by decide,
      Or.inl (by decide)⟩,
    poster_webhook_before_cache_write [] wCons wUploadFail {} (strOf "T1")
      (strOf "T2") wInput {} (by decide) (by decide) (by decide) (by decide)
      (by decide) (by decide) (Or.inl (by decide)) (by decide) (by decide)
      (by decide) (by decide)⟩

theorem jws_ws (b : Nat) (h : jws b = true) : isWSByte b = true := by
  simp only [jws, decide_eq_true_eq] at h
  simp only [isWSByte, decide_eq_true_eq]
  omega

theorem head_dropWhile_neg (P : Nat → Bool) (l : List Nat) (x : Nat)
    (h : (l.dropWhile P).head? = some x) : P x = false := by
  have hmatch := List.head?_dropWhile_not P l
  rw [h] at hmatch
  simpa using hmatch

theorem dropWhile_head_neg (P : Nat → Bool) (l : List Nat) (x : Nat)
    (hh : l.head? = some x) (hx : P x = false) : l.dropWhile P = l := by
  cases l with
  | nil => simp at hh
  | cons a t =>
    simp only [List.head?_cons, Option.some.injEq] at hh
    subst hh
    rw [List.dropWhile_cons_of_neg (by simp [hx])]

theorem occursAt_false_of_short (s pat : Str) (k : Nat)
    (hlen : s.length < k + pat.length) (hp : pat ≠ []) :
    occursAt s pat k = false := by
  rw [occursAt, decide_eq_false_iff_not]
  intro hEq
  have hlen2 := congrArg List.length hEq
  rw [List.length_take, List.length_drop] at hlen2
  have hpos : 0 < pat.length := List.length_pos.mpr hp
  omega

theorem getLast_filter_range (p : Nat → Bool) (m : Nat) (hm : p m = true) :
    ∀ n, m < n → (∀ k, m < k → k < n → p k = false) →
    ((List.range n).filter p).getLast? = some m := by
  intro n
  induction n with
  | zero => intro hmn _; omega
  | succ n ih =>
    intro hmn hmax
    rw [List.range_succ, List.filter_append]
    by_cases hcase : m = n
    · subst hcase
      simp only [List.filter_cons, List.filter_nil]
      rw [if_pos hm]
      exact List.getLast?_concat _
    · have hpn : p n = false := hmax n (by omega) (by omega)
      simp only [List.filter_cons, List.filter_nil]
      rw [if_neg (by simp [hpn]), List.append_nil]
      exact ih (by omega) (fun k hk1 hk2 => hmax k hk1 (by omega))

theorem indexOfByte_cons_self (b : Nat) (xs : Str) :
    indexOfByte (b :: xs) b = some 0 := by
  rw [indexOfByte, if_pos rfl]

theorem indexOfByte_append_of_not_mem (l1 l2 : Str) (b : Nat)
    (h : ∀ x ∈ l1, x ≠ b) :
    indexOfByte (l1 ++ l2) b =
      (indexOfByte l2 b).map (fun i => i + l1.length) := by
  induction l1 with
  | nil =>
    rw [List.nil_append]
    cases indexOfByte l2 b with
    | none => rfl
    | some v => simp
  | cons a t ih =>
    rw [List.cons_append, indexOfByte]
    rw [if_neg (h a (by simp))]
    rw [ih (fun x hx => h x (by simp [hx]))]
    cases indexOfByte l2 b with
    | none => rfl
    | some v =>
      simp only [Option.map_some', Option.some.injEq, List.length_cons]
      omega

theorem lastIndexOfByte_append (l1 l2 : Str) (b : Nat) :
    lastIndexOfByte (l1 ++ l2) b =
      match lastIndexOfByte l2 b with
      | some i => some (l1.length + i)
      | none => lastIndexOfByte l1 b := by
  induction l1 with
  | nil =>
    rw [List.nil_append]
    cases lastIndexOfByte l2 b with
    | none => rfl
    | some i => simp
  | cons a t ih =>
    rw [List.cons_append, lastIndexOfByte, ih]
    cases lastIndexOfByte l2 b with
    | some i =>
      dsimp only
      simp only [Option.some.injEq, List.length_cons]
      omega
    | none =>
      dsimp only
      conv_rhs => rw [lastIndexOfByte]

theorem lastIndexOfByte_eq_none (l : Str) (b : Nat) (h : ∀ x ∈ l, x ≠ b) :
    lastIndexOfByte l b = none := by
  induction l with
  | nil => rfl
  | cons a t ih =>
    rw [lastIndexOfByte, ih (fun x hx => h x (by simp [hx]))]
    rw [if_neg (h a (by simp))]

theorem lastIndexOfByte_getLast (l : Str) (b : Nat) (h : l.getLast? = some b) :
    lastIndexOfByte l b = some (l.length - 1) := by
  induction l with
  | nil => simp at h
  | cons a t ih =>
    rw [lastIndexOfByte]
    cases t with
    | nil =>
      simp only [List.getLast?_singleton, Option.some.injEq] at h
      rw [show lastIndexOfByte [] b = none from rfl, if_pos h]
      rfl
    | cons c u =>
      have h2 : (c :: u).getLast? = some b := by
        rw [List.getLast?_cons_cons] at h; exact h
      rw [ih h2]
      dsimp only
      simp only [Option.some.injEq, List.length_cons]
      omega

theorem trimSpace_eq_self (s : Str) (b0 b1 : Nat)
    (hh : s.head? = some b0) (h0 : isWSByte b0 = false)
    (hl : s.getLast? = some b1) (h1 : isWSByte b1 = false) :
    trimSpace s = s := by
  rw [trimSpace]
  rw [dropWhile_head_neg isWSByte s b0 hh h0]
  rw [dropWhile_head_neg isWSByte s.reverse b1
    (by rw [List.head?_reverse]; exact hl) h1]
  exact List.reverse_reverse s

theorem trimSpace_wrap (p1 j p2 : Str)
    (hp1 : p1.dropWhile isWSByte ≠ [])
    (hjh : j.head? = some 123) (hjl : j.getLast? = some 125) :
    trimSpace (p1 ++ j ++ p2) =
      p1.dropWhile isWSByte ++ j ++ (p2.reverse.dropWhile isWSByte).reverse := by
  rw [trimSpace, List.append_assoc]
  rw [List.dropWhile_append]
  rw [if_neg (by simpa [List.isEmpty_iff] using hp1)]
  rw [List.reverse_append, List.reverse_append, List.append_assoc]
  rw [List.dropWhile_append]
  by_cases hE : (p2.reverse.dropWhile isWSByte).isEmpty = true
  · rw [if_pos hE]
    have hjrev :
        (j.reverse ++ (p1.dropWhile isWSByte).reverse).head? = some 125 := by
      rw [List.head?_append]
      rw [List.head?_reverse, hjl]
      rfl
    rw [dropWhile_head_neg isWSByte _ 125 hjrev (by decide)]
    rw [List.reverse_append, List.reverse_reverse, List.reverse_reverse]
    have h0 : p2.reverse.dropWhile isWSByte = [] := by
      simpa [List.isEmpty_iff] using hE
    rw [h0]
    simp
  · rw [if_neg hE]
    rw [List.reverse_append, List.reverse_append, List.reverse_reverse,
      List.reverse_reverse]

theorem parseNum_shape (s : Str) (v : JVal) (r : Str)
    (h : parseNum s = some (v, r)) : ∃ q, v = JVal.num q := by
  rw [parseNum] at h
  try dsimp only at h
  repeat' split at h
  all_goals first
    | (simp only [Option.some.injEq, Prod.mk.injEq] at h
       exact ⟨_, h.1.symm⟩)
    | (simp at h; done)
    | simp_all

theorem parseVal_obj_head (F : Nat) (s : Str) (m : List (Str × JVal)) (r : Str)
    (h : parseVal (F + 1) s = some (JVal.obj m, r)) :
    ∃ t, skipWS s = 123 :: t := by
  rw [parseVal] at h
  cases hs : skipWS s with
  | nil => rw [hs] at h; dsimp only at h; exact absurd h (by simp)
  | cons b rest =>
    rw [hs] at h
    dsimp only at h
    by_cases hb : b = 123
    · exact ⟨rest, by rw [hb]⟩
    · exfalso
      rw [if_neg hb] at h
      repeat' split at h
      all_goals first
        | (simp at h)
        | (rw [Option.map_eq_some'] at h
           obtain ⟨p, hp1, hp2⟩ := h
           simp at hp2)
        | (obtain ⟨q, hq⟩ := parseNum_shape _ _ _ h
           simp at hq)

theorem unmarshal_obj_head (s : Str) (p : summaryPayload)
    (h : jsonUnmarshalPayload s = some p) : ∃ t, skipWS s = 123 :: t := by
  rw [jsonUnmarshalPayload] at h
  cases hp : parseVal (2 * s.length + 2) s with
  | none => rw [hp] at h; simp [payloadFromParse] at h
  | some vr =>
    obtain ⟨v, r⟩ := vr
    rw [hp] at h
    have hp2 : parseVal (2 * s.length + 1 + 1) s = some (v, r) := by
      have harith : 2 * s.length + 1 + 1 = 2 * s.length + 2 := by omega
      rw [harith]; exact hp
    cases v with
    | obj mem => exact parseVal_obj_head _ _ _ _ hp2
    | null => simp [payloadFromParse] at h
    | bool x => simp [payloadFromParse] at h
    | num q => simp [payloadFromParse] at h
    | str t => simp [payloadFromParse] at h
    | arr l => simp [payloadFromParse] at h

theorem jws_eq_false_of_ws (b : Nat) (h : isWSByte b = false) : jws b = false := by
  cases hjw : jws b with
  | false => rfl
  | true => exact absurd (jws_ws b hjw) (by simp [h])

theorem stripFence_self (j : Str) (hjh : j.head? = some 123)
    (hjl : j.getLast? = some 125) : stripFence j = j := by
  have htrim : trimSpace j = j :=
    trimSpace_eq_self j 123 125 hjh (by decide) hjl (by decide)
  have hpre : hasPrefix j (strOf "```") = false := by
    cases j with
    | nil => simp at hjh
    | cons b t =>
      simp only [List.head?_cons, Option.some.injEq] at hjh
      subst hjh
      rw [hasPrefix, show strOf "```" = [96, 96, 96] from by decide]
      simp
  rw [stripFence]
  dsimp only
  rw [htrim]
  rw [if_neg (by simp [hpre])]

theorem stripFence_fenced (j : Str) (hjh : j.head? = some 123)
    (hjl : j.getLast? = some 125) :
    stripFence (strOf "```" ++ [10] ++ j ++ [10] ++ strOf "```") = j := by
  have hF : strOf "```" ++ [10] ++ j ++ [10] ++ strOf "```" =
      96 :: 96 :: 96 :: 10 :: (j ++ [10, 96, 96, 96]) := by
    rw [show strOf "```" = [96, 96, 96] from by decide]
    simp
  rw [hF]
  have hlast : (96 :: 96 :: 96 :: 10 :: (j ++ [10, 96, 96, 96]) : Str).getLast? =
      some 96 := by
    rw [show (96 :: 96 :: 96 :: 10 :: (j ++ [10, 96, 96, 96]) : Str) =
      (96 :: 96 :: 96 :: 10 :: (j ++ [10, 96, 96])) ++ [96] from by simp]
    exact List.getLast?_concat _
  have htrim : trimSpace (96 :: 96 :: 96 :: 10 :: (j ++ [10, 96, 96, 96]) : Str) =
      96 :: 96 :: 96 :: 10 :: (j ++ [10, 96, 96, 96]) :=
    trimSpace_eq_self _ 96 96 rfl (by decide) hlast (by decide)
  have hpre : hasPrefix (96 :: 96 :: 96 :: 10 :: (j ++ [10, 96, 96, 96]) : Str)
      (strOf "```") = true := by
    rw [hasPrefix, show strOf "```" = [96, 96, 96] from by decide]
    simp
  rw [stripFence]
  dsimp only
  rw [htrim, if_pos hpre]
  rw [show ((96 : Nat) :: 96 :: 96 :: 10 :: (j ++ [10, 96, 96, 96]) : Str).drop 3 =
    10 :: (j ++ [10, 96, 96, 96]) from rfl]
  rw [indexOfByte_cons_self]
  dsimp only
  rw [show ((10 : Nat) :: (j ++ [10, 96, 96, 96]) : Str).drop (0 + 1) =
    j ++ [10, 96, 96, 96] from rfl]
  have hseq : lastIndexOfSeq (j ++ [10, 96, 96, 96]) (strOf "```") =
      some (j.length + 1) := by
    rw [lastIndexOfSeq]
    have hn : (j ++ [10, 96, 96, 96] : Str).length + 1 = j.length + 5 := by
      simp [List.length_append]
    rw [hn]
    have hocc : occursAt (j ++ [10, 96, 96, 96]) (strOf "```")
        (j.length + 1) = true := by
      rw [occursAt, show strOf "```" = [96, 96, 96] from by decide]
      have hdrop : (j ++ [10, 96, 96, 96] : Str).drop (j.length + 1) =
          [96, 96, 96] := by
        rw [← List.drop_drop, List.drop_left' rfl]
        rfl
      rw [hdrop]
      decide
    refine getLast_filter_range _ _ hocc _ (by omega) ?_
    intro k hk1 hk2
    refine occursAt_false_of_short _ _ _ ?_ (by decide)
    rw [show (strOf "```").length = 3 from by decide]
    simp [List.length_append]
    omega
  rw [hseq]
  dsimp only
  have htake : (j ++ [10, 96, 96, 96] : Str).take (j.length + 1) = j ++ [10] := by
    rw [List.take_append_eq_append_take]
    rw [List.take_of_length_le (by omega)]
    simp
  rw [htake]
  rw [trimSpace]
  have hd1 : (j ++ [10] : Str).dropWhile isWSByte = j ++ [10] := by
    refine dropWhile_head_neg _ _ 123 ?_ (by decide)
    rw [List.head?_append, hjh]
    rfl
  rw [hd1]
  rw [List.reverse_append]
  rw [show ([10] : Str).reverse = [10] from rfl]
  rw [List.singleton_append, List.dropWhile_cons_of_pos (by decide)]
  have hd2 : j.reverse.dropWhile isWSByte = j.reverse := by
    refine dropWhile_head_neg _ _ 125 ?_ (by decide)
    rw [List.head?_reverse]
    exact hjl
  rw [hd2, List.reverse_reverse]

theorem stripFence_wrap (p1 j p2 : Str)
    (hjh : j.head? = some 123) (hjl : j.getLast? = some 125)
    (hp1g : ∀ b ∈ p1, b ≠ 96)
    (hp1ne : p1.dropWhile isWSByte ≠ []) :
    stripFence (p1 ++ j ++ p2) =
      p1.dropWhile isWSByte ++ j ++ (p2.reverse.dropWhile isWSByte).reverse := by
  have hpre : hasPrefix
      (p1.dropWhile isWSByte ++ (j ++ (p2.reverse.dropWhile isWSByte).reverse))
      (strOf "```") = false := by
    cases hA : p1.dropWhile isWSByte with
    | nil => exact absurd hA hp1ne
    | cons b t =>
      have hbmem : b ∈ p1 := by
        have h1 : b ∈ p1.dropWhile isWSByte := by
          rw [hA]; exact List.mem_cons_self b t
        exact (List.dropWhile_sublist _).mem h1
      have hb96 : b ≠ 96 := hp1g b hbmem
      rw [hasPrefix, show strOf "```" = [96, 96, 96] from by decide]
      simp [hb96]
  rw [stripFence]
  dsimp only
  rw [trimSpace_wrap p1 j p2 hp1ne hjh hjl]
  rw [if_neg (by simp [hpre])]
  try simp [List.append_assoc]

theorem recoverPayload_direct (j : Str) (payload : summaryPayload)
    (hu : jsonUnmarshalPayload j = some payload) :
    recoverPayload j = some (normalizeSummaryPayload payload) := by
  rw [recoverPayload, hu]

theorem recoverPayload_wrap (P j S : Str) (payload : summaryPayload)
    (hjh : j.head? = some 123) (hjl : j.getLast? = some 125)
    (hu : jsonUnmarshalPayload j = some payload)
    (hP : ∀ b ∈ P, b ≠ 123) (hPne : P ≠ [])
    (hPhead : ∀ x, P.head? = some x → isWSByte x = false)
    (hS : ∀ b ∈ S, b ≠ 125) :
    recoverPayload (P ++ j ++ S) = some (normalizeSummaryPayload payload) := by
  obtain ⟨b0, t0, hP0⟩ : ∃ b t, P = b :: t := by
    cases P with
    | nil => exact absurd rfl hPne
    | cons b t => exact ⟨b, t, rfl⟩
  subst hP0
  rw [List.append_assoc]
  have hb0 : isWSByte b0 = false := hPhead b0 rfl
  have hb0j : jws b0 = false := jws_eq_false_of_ws b0 hb0
  have hskip : skipWS ((b0 :: t0) ++ (j ++ S)) = (b0 :: t0) ++ (j ++ S) := by
    rw [skipWS]
    exact dropWhile_head_neg _ _ b0 rfl hb0j
  obtain ⟨jr, hj0⟩ : ∃ t, j = 123 :: t := by
    cases j with
    | nil => simp at hjh
    | cons b t =>
      simp only [List.head?_cons, Option.some.injEq] at hjh
      exact ⟨t, by rw [hjh]⟩
  have hjr : jr ≠ [] := by
    intro h0
    rw [hj0, h0] at hjl
    simp at hjl
  have hj2 : 2 ≤ j.length := by
    rw [hj0]
    cases jr with
    | nil => exact absurd rfl hjr
    | cons c u => simp only [List.length_cons]; omega
  have hnone : jsonUnmarshalPayload ((b0 :: t0) ++ (j ++ S)) = none := by
    cases hu2 : jsonUnmarshalPayload ((b0 :: t0) ++ (j ++ S)) with
    | none => rfl
    | some q =>
      obtain ⟨t, ht⟩ := unmarshal_obj_head _ _ hu2
      rw [hskip, List.cons_append] at ht
      simp only [List.cons.injEq] at ht
      exact absurd ht.1 (hP b0 (List.mem_cons_self b0 t0))
  have hidx : indexOfByte ((b0 :: t0) ++ (j ++ S)) 123 = some (t0.length + 1) := by
    rw [indexOfByte_append_of_not_mem _ _ _ (fun x hx => hP x hx)]
    rw [hj0, List.cons_append, indexOfByte_cons_self]
    simp
  have hS0 : lastIndexOfByte S 125 = none := lastIndexOfByte_eq_none _ _ hS
  have hjS : lastIndexOfByte (j ++ S) 125 = some (j.length - 1) := by
    rw [lastIndexOfByte_append, hS0]
    dsimp only
    exact lastIndexOfByte_getLast j 125 hjl
  have hlast : lastIndexOfByte ((b0 :: t0) ++ (j ++ S)) 125 =
      some (t0.length + 1 + (j.length - 1)) := by
    rw [lastIndexOfByte_append, hjS]
    dsimp only
    simp only [List.length_cons, Option.some.injEq]
  rw [recoverPayload, hnone]
  dsimp only
  rw [hidx, hlast]
  dsimp only
  rw [if_pos (by omega : t0.length + 1 < t0.length + 1 + (j.length - 1))]
  have harith : t0.length + 1 + (j.length - 1) + 1 - (t0.length + 1) = j.length := by
    omega
  rw [harith]
  have hdrop : ((b0 :: t0) ++ (j ++ S)).drop (t0.length + 1) = j ++ S := by
    refine List.drop_left' ?_
    simp
  rw [hdrop]
  rw [List.take_left]
  rw [hu]

/-- C6, counterexample to the claim as stated: `c6j` is a JSON summary
object (starting with a brace and a newline) that `parseSummaryJSON`
decodes on its own, and the surrounding prose is brace-free, yet embedding
it in leading prose that contains a triple backtick makes the parse fail —
the fence-stripping branch fires on the prose's backticks, drops the rest
of the first line (losing the opening brace), and every recovery step then
fails. -/
theorem parse_summary_three_forms_counterexample :
    jsonUnmarshalPayload c6j = some c6payload ∧
    (∀ b ∈ strOf "``` ", b ≠ 123 ∧ b ≠ 125) ∧
    (∀ b ∈ strOf " .", b ≠ 123 ∧ b ≠ 125) ∧
    parseSummaryJSON c6j = some (normalizeSummaryPayload c6payload) ∧
    parseSummaryJSON (strOf "``` " ++ c6j ++ strOf " .") = none := by
  decide

/-- C6 (amended): for every JSON object text `j` encoding the summary
fields (brace-delimited, decoding to `payload`), `parseSummaryJSON`
recovers the same structured fields from (a) `j` itself, (b) `j` wrapped
in a fenced code block, and (c) `j` embedded with leading and trailing
prose, provided the leading prose contains no opening brace and no
backtick and is nonempty after trimming, and the trailing prose contains
no closing brace: all three inputs yield the same normalized payload. -/
theorem parse_summary_three_forms_amended (j p1 p2 : Str)
    (payload : summaryPayload)
    (hjh : j.head? = some 123) (hjl : j.getLast? = some 125)
    (hum : jsonUnmarshalPayload j = some payload)
    (hp1 : ∀ b ∈ p1, b ≠ 123 ∧ b ≠ 96)
    (hp2 : ∀ b ∈ p2, b ≠ 125)
    (hp1ne : p1.dropWhile isWSByte ≠ []) :
    parseSummaryJSON j = some (normalizeSummaryPayload payload) ∧
    parseSummaryJSON (strOf "```" ++ [10] ++ j ++ [10] ++ strOf "```") =
      some (normalizeSummaryPayload payload) ∧
    parseSummaryJSON (p1 ++ j ++ p2) = some (normalizeSummaryPayload payload) := by
  refine ⟨?_, ?_, ?_⟩
  · rw [parseSummaryJSON, stripFence_self j hjh hjl]
    exact recoverPayload_direct j payload hum
  · rw [parseSummaryJSON, stripFence_fenced j hjh hjl]
    exact recoverPayload_direct j payload hum
  · rw [parseSummaryJSON,
      stripFence_wrap p1 j p2 hjh hjl (fun b hb => (hp1 b hb).2) hp1ne]
    refine recoverPayload_wrap _ j _ payload hjh hjl hum ?_ hp1ne ?_ ?_
    · intro b hb
      exact (hp1 b ((List.dropWhile_sublist _).mem hb)).1
    · intro x hx
      exact head_dropWhile_neg _ _ _ hx
    · intro b hb
      rw [List.mem_reverse] at hb
      refine hp2 b ?_
      have h2 : b ∈ p2.reverse := (List.dropWhile_sublist _).mem hb
      rw [List.mem_reverse] at h2
      exact h2

/-- Witness for C6 (amended) at `c6j` with leading prose "note: " and
trailing prose " end.". -/
theorem parse_summary_three_forms_amended_witness :
    (List.head? c6j = some 123 ∧ List.getLast? c6j = some 125 ∧
      jsonUnmarshalPayload c6j = some c6payload ∧
      (∀ b ∈ strOf "note: ", b ≠ 123 ∧ b ≠ 96) ∧
      (∀ b ∈ strOf " end.", b ≠ 125) ∧
      (strOf "note: ").dropWhile isWSByte ≠ []) ∧
    (parseSummaryJSON c6j = some (normalizeSummaryPayload c6payload) ∧
      parseSummaryJSON (strOf "```" ++ [10] ++ c6j ++ [10] ++ strOf "```") =
        some (normalizeSummaryPayload c6payload) ∧
      parseSummaryJSON (strOf "note: " ++ c6j ++ strOf " end.") =
        some (normalizeSummaryPayload c6payload)) :=
  ⟨⟨by decide, by decide, by decide, by decide, by decide, by decide⟩,
    parse_summary_three_forms_amended c6j (strOf "note: ") (strOf " end.")
      c6payload (by decide) (by decide) (by decide) (by decide) (by decide)
      (by decide)⟩

/-- Witness for C8 at a two-item bundle with budgets (3, 500000). -/
theorem collect_evidence_budgets_witness :
    ((0 : Int) < 3 ∧ (0 : Int) < 500000) ∧
    (((collectEvidenceText wFetch wBundle 3 500000).length : Int) ≤ 3 ∧
      (sumContent (collectEvidenceText wFetch wBundle 3 500000) : Int) ≤ 500000 ∧
      List.Sublist
        ((collectEvidenceText wFetch wBundle 3 500000).map (fun e => e.ArtifactPtr))
        (wBundle.Evidence.map (fun i => i.ArtifactPtr))) :=
  ⟨⟨by decide, by decide⟩,
    collect_evidence_budgets wFetch wBundle 3 500000 (by decide) (by decide)⟩

end Enricher
